import Mathlib

/-!
Verification of the NagaraTrack-Lite CSV-backed transit store
(`src/backend/main.py`): shallow embedding of the tolerant list parser,
stop-route mapping resolver, nearest-neighbor geometry deriver, import
pipeline, and CSV write discipline, together with proofs and refutations
of the specification's claims.

Conventions of the embedding:
- Python values are modelled by the inductive type `Py`.  Machine floats
  are modelled by exact rationals (`ℚ`); IEEE-754 rounding is abstracted
  away, which is irrelevant to every claim below (none depends on binary
  rounding).  A Python number keeps its source lexeme so that `str()` on
  it can be modelled (Python normalises float repr; for the decimal
  lexemes appearing in this code base the lexeme coincides with it).
- `dict`/`list` iteration order follows Python's documented insertion
  order.  The iteration order of a Python `set` is NOT defined (string
  hashing is randomised per process), so code that linearises a set is
  modelled as a function of an arbitrary permutation of the set's
  elements, constrained only to be such a permutation.
- Fallible Python code (uncaught exceptions) is modelled with
  `Option`/`Except`.
-/

namespace NagaraTrack

/-- Python `str.strip()` whitespace set: space, tab, newline, carriage
return, vertical tab, form feed. -/
def isPyWs (c : Char) : Bool :=
  c = ' ' || c = '\t' || c = '\n' || c = '\r' || c = '\x0b' || c = '\x0c'

/-- Drop characters satisfying `p` from the end of a character list. -/
def dropEndWhile (p : Char → Bool) (cs : List Char) : List Char :=
  ((cs.reverse).dropWhile p).reverse

/-- Strip characters satisfying `p` from both ends (general form of
Python's `str.strip(chars)`). -/
def stripBoth (p : Char → Bool) (cs : List Char) : List Char :=
  dropEndWhile p (cs.dropWhile p)

/-- Python `s.strip()` (whitespace strip). -/
def pyStrip (s : String) : String :=
  ⟨stripBoth isPyWs s.toList⟩

/-- Python `s.strip(chars)` for an explicit character set. -/
def pyStripChars (chars : List Char) (s : String) : String :=
  ⟨stripBoth (fun c => chars.contains c) s.toList⟩

/-- Split a character list on a separator character (Python
`str.split(sep)`: `"".split(",") == [""]`, empty pieces kept). -/
def splitOnChar (sep : Char) : List Char → List (List Char)
  | [] => [[]]
  | c :: cs =>
    let rest := splitOnChar sep cs
    if c = sep then [] :: rest
    else
      match rest with
      | [] => [[c]]
      | r :: rs => (c :: r) :: rs

/-- ASCII word character, as in the regex class `[A-Za-z0-9_]`. -/
def isWordChar (c : Char) : Bool :=
  ('A' ≤ c && c ≤ 'Z') || ('a' ≤ c && c ≤ 'z') || ('0' ≤ c && c ≤ '9') || c = '_'

/-- Split into maximal runs of word characters, discarding everything
else (the effect of `re.split(r"[^A-Za-z0-9_]+", s)` followed by
dropping empty tokens). -/
def wordRuns : List Char → List (List Char)
  | [] => []
  | c :: cs =>
    let rest := wordRuns cs
    if isWordChar c then
      match cs with
      | [] => [[c]]
      | d :: _ =>
        if isWordChar d then
          match rest with
          | [] => [[c]]
          | r :: rs => (c :: r) :: rs
        else [c] :: rest
    else rest

/-- Python values as they occur in this code base.  `num` carries both
the source lexeme (for `str()`) and the exact rational value.  Python
tuples produced by `ast.literal_eval` are represented as `list` (the
code immediately converts them with `list(...)` or iterates them, and
the `isinstance(x, (list, tuple))` tests treat both alike). -/
inductive Py where
  | null
  | bool (b : Bool)
  | num (lex : String) (val : ℚ)
  | str (s : String)
  | list (xs : List Py)
  | dict (kvs : List (String × Py))

/-- Python `repr()` of a string: quote with `'`, or with `"` when the
text contains `'` but no `"`; escape the backslash, the chosen quote,
and the common control characters.  (Non-printable `\xXX` escaping is
not modelled; no claim depends on it.) -/
def pyReprStr (s : String) : String :=
  let q : Char := if s.toList.contains '\'' && !(s.toList.contains '"') then '"' else '\''
  let body := s.toList.foldr (fun c acc =>
    (if c = '\\' then ['\\', '\\']
     else if c = q then ['\\', q]
     else if c = '\n' then ['\\', 'n']
     else if c = '\t' then ['\\', 't']
     else if c = '\r' then ['\\', 'r']
     else [c]) ++ acc) []
  ⟨q :: body ++ [q]⟩

mutual

/-- Python `str(x)`. -/
def Py.strOf : Py → String
  | .null => "None"
  | .bool true => "True"
  | .bool false => "False"
  | .num lex _ => lex
  | .str s => s
  | .list xs => "[" ++ String.intercalate ", " (Py.reprList xs) ++ "]"
  | .dict kvs => "\x7b" ++ String.intercalate ", " (Py.reprKVs kvs) ++ "\x7d"

/-- Python `repr(x)`. -/
def Py.reprOf : Py → String
  | .null => "None"
  | .bool true => "True"
  | .bool false => "False"
  | .num lex _ => lex
  | .str s => pyReprStr s
  | .list xs => "[" ++ String.intercalate ", " (Py.reprList xs) ++ "]"
  | .dict kvs => "\x7b" ++ String.intercalate ", " (Py.reprKVs kvs) ++ "\x7d"

/-- `repr` of each element of a list. -/
def Py.reprList : List Py → List String
  | [] => []
  | x :: xs => Py.reprOf x :: Py.reprList xs

/-- `repr` of each `key: value` entry of a dict. -/
def Py.reprKVs : List (String × Py) → List String
  | [] => []
  | (k, v) :: xs => (pyReprStr k ++ ": " ++ Py.reprOf v) :: Py.reprKVs xs

end

/-- Python truthiness. -/
def Py.truthy : Py → Bool
  | .null => false
  | .bool b => b
  | .num _ v => v ≠ 0
  | .str s => s ≠ ""
  | .list xs => !xs.isEmpty
  | .dict kvs => !kvs.isEmpty

/-- Python `a or b`. -/
def pyOr (a b : Py) : Py := if a.truthy then a else b

/-- Numeric value of a digit list (most significant first). -/
def digitsVal (ds : List Char) : Nat :=
  ds.foldl (fun a c => a * 10 + (c.toNat - '0'.toNat)) 0

/-- Exact rational from sign, integer digits, fraction digits and a
decimal exponent. -/
def mkDecimal (neg : Bool) (ip fp : List Char) (ex : Int) : ℚ :=
  let base : ℚ := (digitsVal ip : ℚ) + (digitsVal fp : ℚ) / (10 : ℚ) ^ fp.length
  let v := base * (10 : ℚ) ^ ex
  if neg then -v else v

/-- Read an optional exponent suffix `([eE][+-]?digits)` and require the
rest to be empty; `Option.none` on malformed trailing text. -/
def readExpSuffix : List Char → Option Int
  | [] => some 0
  | c :: r =>
    if c = 'e' || c = 'E' then
      let (eneg, r1) : Bool × List Char :=
        match r with
        | '-' :: t => (true, t)
        | '+' :: t => (false, t)
        | t => (false, t)
      let (eds, r2) := r1.span Char.isDigit
      if eds.isEmpty || !r2.isEmpty then Option.none
      else some (if eneg then -(digitsVal eds : Int) else (digitsVal eds : Int))
    else Option.none

/-- Python `float(s)` on a string: optional surrounding whitespace and
sign, decimal digits with optional point and exponent.  `inf`/`nan`
inputs (not representable in `ℚ`) are modelled as failure; no claim
depends on them. -/
def floatLit? (s : String) : Option ℚ :=
  let cs := stripBoth isPyWs s.toList
  let (neg, cs1) : Bool × List Char :=
    match cs with
    | '-' :: t => (true, t)
    | '+' :: t => (false, t)
    | t => (false, t)
  let (ip, cs2) := cs1.span Char.isDigit
  let (fp, cs3) : List Char × List Char :=
    match cs2 with
    | '.' :: t => t.span Char.isDigit
    | t => ([], t)
  let hadDot : Bool := match cs2 with | '.' :: _ => true | _ => false
  if ip.isEmpty && (!hadDot || fp.isEmpty) then Option.none
  else
    match readExpSuffix cs3 with
    | some ex => some (mkDecimal neg ip fp ex)
    | Option.none => Option.none

/-- Python `float(x)` on a value: numbers pass through, booleans become
0/1, strings are parsed; everything else raises (`Option.none`). -/
def Py.float? : Py → Option ℚ
  | .num _ v => some v
  | .bool b => some (if b then 1 else 0)
  | .str s => floatLit? s
  | _ => Option.none

/-! ### JSON parsing (`json.loads`) and serialization (`json.dumps`) -/

/-- JSON whitespace. -/
def isJsonWs (c : Char) : Bool :=
  c = ' ' || c = '\t' || c = '\n' || c = '\r'

/-- Value of a hexadecimal digit. -/
def hexVal? (c : Char) : Option Nat :=
  let n := c.toNat
  if 48 ≤ n ∧ n ≤ 57 then some (n - 48)
  else if 97 ≤ n ∧ n ≤ 102 then some (n - 87)
  else if 65 ≤ n ∧ n ≤ 70 then some (n - 55)
  else Option.none

/-- One-character JSON escapes. -/
def jsonEsc? (c : Char) : Option Char :=
  if c = '"' then some '"'
  else if c = '\\' then some '\\'
  else if c = '/' then some '/'
  else if c = 'b' then some '\x08'
  else if c = 'f' then some '\x0c'
  else if c = 'n' then some '\n'
  else if c = 'r' then some '\r'
  else if c = 't' then some '\t'
  else Option.none

/-- Parse the body of a JSON string after the opening quote; returns the
decoded characters and the remainder after the closing quote.  Raw
control characters are rejected, as in strict `json.loads`.
(Surrogate-pair recombination of `\uXXXX` escapes is not modelled; the
serializer below never emits surrogates.) -/
def jsonStrBody : List Char → Option (List Char × List Char)
  | [] => Option.none
  | c :: rest =>
    if c = '"' then some ([], rest)
    else if c = '\\' then
      match rest with
      | [] => Option.none
      | e :: rest2 =>
        if e = 'u' then
          match rest2 with
          | h1 :: h2 :: h3 :: h4 :: rest3 =>
            match hexVal? h1, hexVal? h2, hexVal? h3, hexVal? h4 with
            | some a, some b, some c', some d =>
              (jsonStrBody rest3).map
                (fun p => (Char.ofNat (((a * 16 + b) * 16 + c') * 16 + d) :: p.1, p.2))
            | _, _, _, _ => Option.none
          | _ => Option.none
        else
          match jsonEsc? e with
          | some d => (jsonStrBody rest2).map (fun p => (d :: p.1, p.2))
          | Option.none => Option.none
    else if c.toNat < 0x20 then Option.none
    else (jsonStrBody rest).map (fun p => (c :: p.1, p.2))

/-- Parse a JSON number (sign, integer digits, optional fraction and
exponent), returning it as `Py.num` with its source lexeme. -/
def jsonNum : List Char → Option (Py × List Char)
  | cs =>
    let (neg, sgn, cs1) : Bool × List Char × List Char :=
      match cs with
      | '-' :: t => (true, ['-'], t)
      | t => (false, [], t)
    let (ip, cs2) := cs1.span Char.isDigit
    if ip.isEmpty then Option.none
    else
      let (fpart, cs3) : List Char × List Char :=
        match cs2 with
        | '.' :: t =>
          let (fp, r) := t.span Char.isDigit
          if fp.isEmpty then ([], cs2) else ('.' :: fp, r)
        | _ => ([], cs2)
      let fdigits := if fpart.isEmpty then [] else fpart.tail
      let (epart, ex, cs4) : List Char × Int × List Char :=
        match cs3 with
        | c :: t =>
          if c = 'e' || c = 'E' then
            let (eneg, es, t1) : Bool × List Char × List Char :=
              match t with
              | '-' :: u => (true, ['-'], u)
              | '+' :: u => (false, ['+'], u)
              | u => (false, [], u)
            let (eds, t2) := t1.span Char.isDigit
            if eds.isEmpty then ([], 0, cs3)
            else (c :: es ++ eds, (if eneg then -(digitsVal eds : Int) else (digitsVal eds : Int)), t2)
          else ([], 0, cs3)
        | [] => ([], 0, cs3)
      let lex : String := ⟨sgn ++ ip ++ fpart ++ epart⟩
      some (.num lex (mkDecimal neg ip fdigits ex), cs4)

mutual

/-- Parse one JSON value (fuel-indexed for nested structures). -/
def jsonVal : Nat → List Char → Option (Py × List Char)
  | 0, _ => Option.none
  | fuel + 1, cs =>
    let cs := cs.dropWhile isJsonWs
    match cs with
    | 'n' :: 'u' :: 'l' :: 'l' :: rest => some (.null, rest)
    | 't' :: 'r' :: 'u' :: 'e' :: rest => some (.bool true, rest)
    | 'f' :: 'a' :: 'l' :: 's' :: 'e' :: rest => some (.bool false, rest)
    | '"' :: rest => (jsonStrBody rest).map (fun p => (.str ⟨p.1⟩, p.2))
    | '[' :: rest =>
      let rest' := rest.dropWhile isJsonWs
      match rest' with
      | ']' :: r2 => some (.list [], r2)
      | _ => (jsonItems fuel rest).map (fun p => (.list p.1, p.2))
    | '\x7b' :: rest =>
      let rest' := rest.dropWhile isJsonWs
      match rest' with
      | '\x7d' :: r2 => some (.dict [], r2)
      | _ => (jsonMembers fuel rest).map (fun p => (.dict p.1, p.2))
    | _ => jsonNum cs

/-- Parse a non-empty comma-separated JSON array tail up to `]`. -/
def jsonItems : Nat → List Char → Option (List Py × List Char)
  | 0, _ => Option.none
  | fuel + 1, cs =>
    match jsonVal fuel cs with
    | Option.none => Option.none
    | some (v, rest) =>
      let rest := rest.dropWhile isJsonWs
      match rest with
      | ',' :: r2 => (jsonItems fuel r2).map (fun p => (v :: p.1, p.2))
      | ']' :: r2 => some ([v], r2)
      | _ => Option.none

/-- Parse a non-empty comma-separated JSON object tail up to the closing
brace. -/
def jsonMembers : Nat → List Char → Option (List (String × Py) × List Char)
  | 0, _ => Option.none
  | fuel + 1, cs =>
    let cs := cs.dropWhile isJsonWs
    match cs with
    | '"' :: rest =>
      match jsonStrBody rest with
      | Option.none => Option.none
      | some (k, r1) =>
        let r1 := r1.dropWhile isJsonWs
        match r1 with
        | ':' :: r2 =>
          match jsonVal fuel r2 with
          | Option.none => Option.none
          | some (v, r3) =>
            let r3 := r3.dropWhile isJsonWs
            match r3 with
            | ',' :: r4 => (jsonMembers fuel r4).map (fun p => ((⟨k⟩, v) :: p.1, p.2))
            | '\x7d' :: r4 => some ([(⟨k⟩, v)], r4)
            | _ => Option.none
        | _ => Option.none
    | _ => Option.none

end

/-- Python `json.loads(s)`: parses a single JSON document, allowing only
whitespace afterwards. -/
def json_loads (s : String) : Option Py :=
  let cs := s.toList
  match jsonVal (2 * cs.length + 2) cs with
  | some (v, rest) => if (rest.dropWhile isJsonWs).isEmpty then some v else Option.none
  | Option.none => Option.none

/-- Lowercase hexadecimal digit. -/
def hexDigit (n : Nat) : Char :=
  if n < 10 then Char.ofNat ('0'.toNat + n) else Char.ofNat ('a'.toNat + n - 10)

/-- JSON escaping of one character, as emitted by `json.dumps`:
quote, backslash and control characters are escaped, everything else is
passed through.  (`ensure_ascii` escaping of non-ASCII characters is not
modelled; it changes only the transport encoding, not the value a
reparse yields.) -/
def jsonEscapeChar (c : Char) : List Char :=
  if c = '"' then ['\\', '"']
  else if c = '\\' then ['\\', '\\']
  else if c = '\n' then ['\\', 'n']
  else if c = '\t' then ['\\', 't']
  else if c = '\r' then ['\\', 'r']
  else if c = '\x08' then ['\\', 'b']
  else if c = '\x0c' then ['\\', 'f']
  else if c.toNat < 0x20 then ['\\', 'u', '0', '0', hexDigit (c.toNat / 16), hexDigit (c.toNat % 16)]
  else [c]

/-- JSON escaping of a whole string. -/
def jsonEscChars (s : String) : List Char :=
  s.toList.foldr (fun c acc => jsonEscapeChar c ++ acc) []

/-- JSON encoding of one string, quotes included. -/
def jsonEncChars (s : String) : List Char :=
  '"' :: jsonEscChars s ++ ['"']

/-- Join encoded elements with the `", "` separator `json.dumps`
uses. -/
def jsonJoin : List (List Char) → List Char
  | [] => []
  | [x] => x
  | x :: y :: rest => x ++ ',' :: ' ' :: jsonJoin (y :: rest)

/-- Python `json.dumps(l)` for a list of strings (the only shape this
code base serializes): bracketed, `", "`-separated, each element
quote-escaped. -/
def json_dumps_strs (l : List String) : String :=
  ⟨'[' :: jsonJoin (l.map jsonEncChars) ++ [']']⟩

/-! ### Python literal parsing (`ast.literal_eval`) -/

/-- One-character Python string escapes. -/
def litEsc? (c : Char) : Option Char :=
  if c = '\'' then some '\''
  else if c = '"' then some '"'
  else if c = '\\' then some '\\'
  else if c = 'n' then some '\n'
  else if c = 't' then some '\t'
  else if c = 'r' then some '\r'
  else if c = 'b' then some '\x08'
  else if c = 'f' then some '\x0c'
  else if c = 'v' then some '\x0b'
  else if c = 'a' then some '\x07'
  else if c = '0' then some '\x00'
  else Option.none

/-- Parse the body of a Python string literal with quote character `q`.
Unknown escapes keep the backslash (Python's behaviour); raw newlines
are rejected as in single-quoted literals. -/
def litStrBody (q : Char) : List Char → Option (List Char × List Char)
  | [] => Option.none
  | '\\' :: 'x' :: h1 :: h2 :: rest =>
    match hexVal? h1, hexVal? h2 with
    | some a, some b => (litStrBody q rest).map (fun p => (Char.ofNat (a * 16 + b) :: p.1, p.2))
    | _, _ => Option.none
  | '\\' :: 'u' :: h1 :: h2 :: h3 :: h4 :: rest =>
    match hexVal? h1, hexVal? h2, hexVal? h3, hexVal? h4 with
    | some a, some b, some c, some d =>
      (litStrBody q rest).map (fun p => (Char.ofNat (((a * 16 + b) * 16 + c) * 16 + d) :: p.1, p.2))
    | _, _, _, _ => Option.none
  | '\\' :: e :: rest =>
    match litEsc? e with
    | some c => (litStrBody q rest).map (fun p => (c :: p.1, p.2))
    | Option.none => (litStrBody q rest).map (fun p => ('\\' :: e :: p.1, p.2))
  | c :: rest =>
    if c = q then some ([], rest)
    else if c = '\n' || c = '\r' then Option.none
    else (litStrBody q rest).map (fun p => (c :: p.1, p.2))

/-- Parse a Python numeric literal (optional sign, digits, optional
point and exponent), keeping the lexeme. -/
def litNum : List Char → Option (Py × List Char)
  | cs =>
    let (neg, sgn, cs1) : Bool × List Char × List Char :=
      match cs with
      | '-' :: t => (true, ['-'], t)
      | '+' :: t => (false, ['+'], t)
      | t => (false, [], t)
    let (ip, cs2) := cs1.span Char.isDigit
    let (fpart, cs3) : List Char × List Char :=
      match cs2 with
      | '.' :: t =>
        let (fp, r) := t.span Char.isDigit
        ('.' :: fp, r)
      | _ => ([], cs2)
    if ip.isEmpty && fpart.length ≤ 1 then Option.none
    else
      let fdigits := if fpart.isEmpty then [] else fpart.tail
      let (epart, ex, cs4) : List Char × Int × List Char :=
        match cs3 with
        | c :: t =>
          if c = 'e' || c = 'E' then
            let (eneg, es, t1) : Bool × List Char × List Char :=
              match t with
              | '-' :: u => (true, ['-'], u)
              | '+' :: u => (false, ['+'], u)
              | u => (false, [], u)
            let (eds, t2) := t1.span Char.isDigit
            if eds.isEmpty then ([], 0, cs3)
            else (c :: es ++ eds, (if eneg then -(digitsVal eds : Int) else (digitsVal eds : Int)), t2)
          else ([], 0, cs3)
        | [] => ([], 0, cs3)
      let lex : String := ⟨sgn ++ ip ++ fpart ++ epart⟩
      some (.num lex (mkDecimal neg ip fdigits ex), cs4)

mutual

/-- Parse one Python literal value (fuel-indexed).  Tuples are returned
as `Py.list` (the caller immediately converts them with `list(...)`;
`isinstance(_, (list, tuple))` treats both alike).  Dict and set
literals are not modelled (parse failure). -/
def litVal : Nat → List Char → Option (Py × List Char)
  | 0, _ => Option.none
  | fuel + 1, cs =>
    let cs := cs.dropWhile isPyWs
    match cs with
    | 'N' :: 'o' :: 'n' :: 'e' :: rest => some (.null, rest)
    | 'T' :: 'r' :: 'u' :: 'e' :: rest => some (.bool true, rest)
    | 'F' :: 'a' :: 'l' :: 's' :: 'e' :: rest => some (.bool false, rest)
    | '\'' :: rest => (litStrBody '\'' rest).map (fun p => (.str ⟨p.1⟩, p.2))
    | '"' :: rest => (litStrBody '"' rest).map (fun p => (.str ⟨p.1⟩, p.2))
    | '[' :: rest => (litItems fuel ']' rest).map (fun p => (.list p.1, p.2.2))
    | '(' :: rest =>
      (litItems fuel ')' rest).map (fun p =>
        match p.1, p.2.1 with
        | [v], false => (v, p.2.2)
        | vs, _ => (.list vs, p.2.2))
    | _ => litNum cs

/-- Parse a comma-separated list of literals up to the closing character
`close`; also reports whether a trailing comma was present (needed to
distinguish `(v)` from `(v,)`). -/
def litItems : Nat → Char → List Char → Option (List Py × Bool × List Char)
  | 0, _, _ => Option.none
  | fuel + 1, close, cs =>
    let cs := cs.dropWhile isPyWs
    match cs with
    | [] => Option.none
    | c :: r =>
      if c = close then some ([], false, r)
      else
        match litVal fuel cs with
        | Option.none => Option.none
        | some (v, rest) =>
          let rest := rest.dropWhile isPyWs
          match rest with
          | ',' :: r2 =>
            (litItems fuel close r2).map (fun p =>
              (v :: p.1, (if p.1.isEmpty then true else p.2.1), p.2.2))
          | c2 :: r2 =>
            if c2 = close then some ([v], false, r2) else Option.none
          | [] => Option.none

end

/-- Python `ast.literal_eval(s)` (restricted to the literal shapes this
code base stores: strings, numbers, booleans, `None`, lists, tuples). -/
def ast_literal_eval (s : String) : Option Py :=
  let cs := s.toList
  match litVal (2 * cs.length + 2) cs with
  | some (v, rest) => if (rest.dropWhile isPyWs).isEmpty then some v else Option.none
  | Option.none => Option.none

/-! ### The tolerant list parser `_parse_list` (main.py lines 618-663) -/

/-- `str(x).strip()` if non-empty (the comprehension filter used all
over `_parse_list`). -/
def stripNonempty (x : Py) : Option String :=
  let s := pyStrip x.strOf
  if s = "" then Option.none else some s

/-- Does the string start with `[` or `(` (Python
`s.startswith(("[", "("))`)? -/
def startsBracket (s : String) : Bool :=
  match s.toList with
  | '[' :: _ => true
  | '(' :: _ => true
  | _ => false

/-- Flattening step of `_parse_list`'s JSON branch: a string element
that (stripped) looks bracketed is re-parsed as a Python literal and a
list/tuple result is spliced in; anything else is kept as is. -/
def parseListFlat (x : Py) : List Py :=
  match x with
  | .str s =>
    if startsBracket (pyStrip s) then
      match ast_literal_eval s with
      | some (.list xs) => xs
      | _ => [x]
    else [x]
  | _ => [x]

/-- `_parse_list` (main.py 618-663): robustly parse a list of strings
from a CSV field.  Tries, in order: pass-through of native lists, JSON
(with one level of nested-literal flattening), Python literal, and a
naive bracket-strip/comma-split fallback.  Total by construction. -/
def _parse_list (value : Py) : List String :=
  match value with
  | .null => []
  | .list xs => xs.filterMap stripNonempty
  | .str raw =>
    let s := pyStrip raw
    if s = "" then []
    else
      match json_loads s with
      | some (.list js) => (js.flatMap parseListFlat).filterMap stripNonempty
      | _ =>
        match ast_literal_eval s with
        | some (.list xs) => xs.filterMap stripNonempty
        | _ =>
          let s2 := pyStripChars ['[', ']', '(', ')'] s
          let parts := (splitOnChar ',' s2.toList).map
            (fun p => pyStripChars ['\'', '"'] (pyStrip ⟨p⟩))
          parts.filter (fun p => p ≠ "")
  | _ => []

/-! ### CSV rows -/

/-- A CSV row as produced by `csv.DictReader`: an ordered mapping from
field names to string values.  (`DictReader` also yields `None` values
for columns missing from a short row; a missing key and a `None` value
behave identically in every `r.get(...)` use below, so absence models
both.) -/
abbrev Row := List (String × String)

/-- Python `row.get(key)`: the stored string, or `None`. -/
def rowGet (r : Row) (k : String) : Py :=
  match r.find? (fun kv => kv.1 = k) with
  | some kv => .str kv.2
  | Option.none => .null

/-- The id of a stop row: `str(r.get("stop_id") or r.get("id") or "").strip()`. -/
def stopRowId (r : Row) : String :=
  pyStrip (Py.strOf (pyOr (pyOr (rowGet r "stop_id") (rowGet r "id")) (.str "")))

/-- The id of a route row: `str(r.get("route_id") or "").strip()`. -/
def routeRowId (r : Row) : String :=
  pyStrip (Py.strOf (pyOr (rowGet r "route_id") (.str "")))

/-! ### Stop-route mapping resolver (`_load_stop_route_mappings`,
main.py 706-741) -/

/-- A Python `set` of strings, modelled as a duplicate-free list
(`set.add` keeps an existing member, otherwise adds one; only the
membership relation is observable, plus full sorting below). -/
def setInsert (l : List String) (x : String) : List String :=
  if x ∈ l then l else l ++ [x]

/-- Union of a set into another, element by element. -/
def setUnion (l : List String) (other : List String) : List String :=
  other.foldl setInsert l

/-- Lexicographic order on strings by Unicode code point (Python's
`str` comparison, used by `sorted`). -/
def charListLe : List Char → List Char → Bool
  | [], _ => true
  | _x :: _xs, [] => false
  | c :: cs, d :: ds =>
    if c.toNat < d.toNat then true
    else if d.toNat < c.toNat then false
    else charListLe cs ds

/-- String comparison by code points. -/
def strLeB (a b : String) : Bool := charListLe a.toList b.toList

/-- Insert into an ascending list, keeping it ascending (stable). -/
def insertSorted (x : String) : List String → List String
  | [] => [x]
  | y :: ys => if strLeB x y then x :: y :: ys else y :: insertSorted x ys

/-- Python `sorted` on strings: ascending by code point. -/
def sortStrs (l : List String) : List String := l.foldr insertSorted []

/-- The pair of dictionaries-of-sets built by the resolver, modelled as
functions to duplicate-free member lists. -/
structure Maps where
  stop_to_routes : String → List String
  route_to_stops : String → List String

/-- Record one `stop ↔ route` edge in both directions (each loop
iteration of the resolver touches both dictionaries with the same
edge). -/
def insertEdge (m : Maps) (sid rid : String) : Maps where
  stop_to_routes := fun x => if x = sid then setInsert (m.stop_to_routes x) rid else m.stop_to_routes x
  route_to_stops := fun x => if x = rid then setInsert (m.route_to_stops x) sid else m.route_to_stops x

/-- Resolver step for one `BusStops.csv` row: every parsed entry of the
`routes` field contributes an edge. -/
def addStopRow (m : Maps) (r : Row) : Maps :=
  let sid := stopRowId r
  if sid = "" then m
  else
    (_parse_list (pyOr (rowGet r "routes") (.str "[]"))).foldl
      (fun m rid =>
        let rid_s := pyStrip rid
        if rid_s = "" then m else insertEdge m sid rid_s) m

/-- Resolver step for one `Routes.csv` row: every parsed entry of the
`stops` field contributes an edge. -/
def addRouteRow (m : Maps) (r : Row) : Maps :=
  let rid := routeRowId r
  if rid = "" then m
  else
    (_parse_list (pyOr (rowGet r "stops") (.str "[]"))).foldl
      (fun m sid =>
        let sid_s := pyStrip sid
        if sid_s = "" then m else insertEdge m sid_s rid) m

/-- `_load_stop_route_mappings` (main.py 706-741), parameterized by the
two CSV files' rows (the Python reads them from disk). -/
def _load_stop_route_mappings (bsRows rtRows : List Row) : Maps :=
  rtRows.foldl addRouteRow (bsRows.foldl addStopRow ⟨fun _ => [], fun _ => []⟩)

/-- Symmetry invariant between the two resolver dictionaries. -/
def MapsSym (m : Maps) : Prop :=
  ∀ s r, r ∈ m.stop_to_routes s ↔ s ∈ m.route_to_stops r

/-! ### Comprehensive stop-id collection (`_collect_route_stop_ids`,
main.py 744-783) -/

/-- `str(x).strip()` of a string, kept only if non-empty. -/
def stripNonemptyStr (x : String) : Option String :=
  let s := pyStrip x
  if s = "" then Option.none else some s

/-- Token scan of one stop row's raw `routes` field: brackets and
quotes blanked, then split on non-word runs (main.py 765-779). -/
def routeTokens (raw : Py) : List String :=
  match raw with
  | .list xs =>
    xs.filterMap (fun x =>
      if pyStrip x.strOf ≠ "" then some (pyStripChars ['\'', '"'] x.strOf) else Option.none)
  | _ =>
    let sstr := Py.strOf (pyOr raw (.str ""))
    let sstr2 := sstr.toList.map
      (fun c => if c = '[' || c = ']' || c = '(' || c = ')' || c = '"' || c = '\'' then ' ' else c)
    (wordRuns sstr2).map (fun l => ⟨l⟩)

/-- `_collect_route_stop_ids`: union of the route row's parsed `stops`
field, the resolver's `route_to_stops[rid]`, and a raw token scan of
every stop row, returned as a sorted duplicate-free list. -/
def _collect_route_stop_ids (rid : String) (route_row : Row) (stops_rows : List Row)
    (route_to_stops : String → List String) : List String :=
  let base_list := _parse_list (pyOr (rowGet route_row "stops") (.str "[]"))
  let ids1 := setUnion [] (base_list.filterMap stripNonemptyStr)
  let ids2 := setUnion ids1 (route_to_stops rid)
  let extra := stops_rows.filterMap (fun srow =>
    let sid := stopRowId srow
    if sid = "" then Option.none
    else if rid ≠ "" ∧ rid ∈ routeTokens (rowGet srow "routes") then some sid
    else Option.none)
  sortStrs (setUnion ids2 extra)

/-! ### Nearest-neighbor ordering (`_nearest_neighbor_order`,
main.py 786-815) -/

/-- Squared Euclidean distance in degree space. -/
def d2 (a b : ℚ × ℚ) : ℚ := (a.1 - b.1) ^ 2 + (a.2 - b.2) ^ 2

/-- First element of `l` minimizing `key` (Python `min(l, key=key)`:
ties keep the earliest element). -/
def argminKey {α β : Type*} [LinearOrder β] (key : α → β) : List α → Option α
  | [] => Option.none
  | x :: xs => some (xs.foldl (fun b a => if key a < key b then a else b) x)

/-- The greedy selection loop: repeatedly append the unvisited index
whose point is nearest to the previously appended one.  `fuel` bounds
the iteration count (the Python `while` runs at most `n` times). -/
def nnLoop (points : List (ℚ × ℚ)) : Nat → Nat → List Nat → List Nat
  | 0, _, _ => []
  | fuel + 1, last, remaining =>
    match argminKey (fun i => d2 (points.getD last (0, 0)) (points.getD i (0, 0))) remaining with
    | some i => i :: nnLoop points fuel i (remaining.erase i)
    | Option.none => []

/-- `_nearest_neighbor_order` (main.py 786-815): nearest-neighbor path
visiting all points, starting at the minimum-longitude point (ties by
minimum latitude) when no valid start index is given. -/
def _nearest_neighbor_order (points : List (ℚ × ℚ)) (start_index : Option Int) :
    List (ℚ × ℚ) :=
  if points.isEmpty then []
  else
    let n := points.length
    let minStart :=
      (argminKey (fun i => toLex ((points.getD i (0, 0)).2, (points.getD i (0, 0)).1))
        (List.range n)).getD 0
    let start : Nat :=
      match start_index with
      | some s => if 0 ≤ s ∧ s < (n : Int) then s.toNat else minStart
      | Option.none => minStart
    let remaining := (List.range n).filter (fun i => i ≠ start)
    (start :: nnLoop points n start remaining).map (fun i => points.getD i (0, 0))

/-! ### Route geometry derivation (`routes_geojson`, main.py 857-973) -/

/-- The `stop_id -> (lat, lon)` lookup built at the top of
`routes_geojson` (main.py 869-879): dictionary insertion order, later
rows overriding earlier ones on the same id. -/
def lookupUpsert {α : Type*} (m : List (String × α)) (k : String) (v : α) :
    List (String × α) :=
  match m with
  | [] => [(k, v)]
  | (k', v') :: rest => if k' = k then (k, v) :: rest else (k', v') :: lookupUpsert rest k v

/-- Association lookup (`dict.get`). -/
def lookupGet {α : Type*} (m : List (String × α)) (k : String) : Option α :=
  (m.find? (fun kv => kv.1 = k)).map (fun kv => kv.2)

/-- Build the stop-coordinate lookup: rows whose coordinates fail to
parse as floats are skipped, rows with an empty id are skipped. -/
def buildStopLookup (stops_rows : List Row) : List (String × (ℚ × ℚ)) :=
  stops_rows.foldl
    (fun m s =>
      match Py.float? (pyOr (rowGet s "latitude") (rowGet s "stop_lat")),
            Py.float? (pyOr (rowGet s "longitude") (rowGet s "stop_lon")) with
      | some lat, some lon =>
        let sid := stopRowId s
        if sid = "" then m else lookupUpsert m sid (lat, lon)
      | _, _ => m) []

/-- Resolve stop ids to coordinates in order, silently skipping
unresolvable ids (main.py 895-900). -/
def resolvePts (ids : List String) (lookup : List (String × (ℚ × ℚ))) : List (ℚ × ℚ) :=
  ids.filterMap (fun sid => lookupGet lookup sid)

/-- Flip `(lat, lon)` points to `(lon, lat)` output order (the GeoJSON
axis flip at the serialization boundary). -/
def flipLine (pts : List (ℚ × ℚ)) : List (ℚ × ℚ) := pts.map (fun p => (p.2, p.1))

/-- Python iteration over a value: lists yield elements, strings yield
one-character strings, dicts yield keys; numbers and `None` raise
`TypeError`. -/
def iterPy : Py → Option (List Py)
  | .list xs => some xs
  | .str s => some (s.toList.map (fun c => Py.str ⟨[c]⟩))
  | .dict kvs => some (kvs.map (fun kv => Py.str kv.1))
  | _ => Option.none

/-- `isinstance(x, (int, float, str))` (booleans are `int` in Python). -/
def scalarish : Py → Bool
  | .num _ _ => true
  | .bool _ => true
  | .str _ => true
  | _ => false

/-- Convert parsed stored pairs to a `[lon, lat]` line: the
comprehension of main.py 933-937, which skips malformed shapes but
raises (`Except.error`) if `float()` fails on a member of an accepted
pair. -/
def convertGo : List Py → Except String (List (ℚ × ℚ))
  | [] => .ok []
  | p :: rest =>
    match p with
    | .list [a, b] =>
      if scalarish a && scalarish b then
        match Py.float? b, Py.float? a with
        | some lon, some lat => (convertGo rest).map (fun l => (lon, lat) :: l)
        | _, _ => .error "ValueError: could not convert string to float"
      else convertGo rest
    | _ => convertGo rest

/-- Iterate a pairs value and convert; a non-iterable value raises
`TypeError` (the Python `for p in pairs` over the raw `json.loads`
result). -/
def convertPairs (pairsVal : Py) : Except String (List (ℚ × ℚ)) :=
  match iterPy pairsVal with
  | some elems => convertGo elems
  | Option.none => .error "TypeError: object is not iterable"

/-- The stored-coordinates fallback (main.py 918-937): a falsy
`coordinates` field yields no points; otherwise the text is parsed as
JSON, then as a Python literal (a non-list literal leaves `pairs`
empty), and converted pair by pair. -/
def coordsFallback (r : Row) : Except String (List (ℚ × ℚ)) :=
  match rowGet r "coordinates" with
  | .str s =>
    if s = "" then .ok []
    else
      let pairs : Py :=
        match json_loads s with
        | some j => j
        | Option.none =>
          match ast_literal_eval s with
          | some (.list xs) => .list xs
          | _ => .list []
      convertPairs pairs
  | _ => .ok []

/-- Geometry derivation for one route row, exactly as `routes_geojson`
performs it (main.py 882-949): a first pass over the declared stop
order (`all_stop_ids` standing in when the declared list parses empty),
a second pass over the comprehensive id set, the stored-coordinates
fallback, and a final retry over the comprehensive set.  Returns the
derived `[lon, lat]` line, or an error when the fallback raises. -/
def routeLine (r : Row) (stops_rows : List Row)
    (route_to_stops : String → List String) : Except String (List (ℚ × ℚ)) :=
  let stop_lookup := buildStopLookup stops_rows
  let rid := routeRowId r
  let all_stop_ids := _collect_route_stop_ids rid r stops_rows route_to_stops
  let parsed := _parse_list (pyOr (rowGet r "stops") (.str "[]"))
  let stops_list := if parsed.isEmpty then all_stop_ids else parsed
  let line1 : List (ℚ × ℚ) :=
    if stops_list.isEmpty then []
    else
      let ordered_pts := resolvePts stops_list stop_lookup
      let d1 :=
        if 2 ≤ ordered_pts.length then
          flipLine (_nearest_neighbor_order ordered_pts Option.none)
        else []
      if d1.length < 2 then
        let pts := resolvePts all_stop_ids stop_lookup
        if 2 ≤ pts.length then flipLine (_nearest_neighbor_order pts Option.none) else d1
      else d1
  match (if line1.isEmpty then coordsFallback r else .ok line1) with
  | .error e => .error e
  | .ok line2 =>
    if line2.isEmpty then
      let ids := _collect_route_stop_ids rid r stops_rows route_to_stops
      let pts := resolvePts ids stop_lookup
      if 2 ≤ pts.length then .ok (flipLine (_nearest_neighbor_order pts Option.none))
      else .ok []
    else .ok line2

/-- The specification's view of the same derivation (§4.5 of the spec,
amended): three sources in fixed order - declared stop order, the
comprehensive id set, then the stored `coordinates` field in stored
order - where the two stop-based sources require at least 2 resolved
points and the stored-coordinates source is used whenever it converts
to at least one pair (raising if a kept pair holds a non-numeric
string). -/
def specRouteLine (r : Row) (stops_rows : List Row)
    (route_to_stops : String → List String) : Except String (List (ℚ × ℚ)) :=
  let stop_lookup := buildStopLookup stops_rows
  let rid := routeRowId r
  let declaredPts := resolvePts (_parse_list (pyOr (rowGet r "stops") (.str "[]"))) stop_lookup
  let compPts := resolvePts (_collect_route_stop_ids rid r stops_rows route_to_stops) stop_lookup
  if 2 ≤ declaredPts.length then .ok (flipLine (_nearest_neighbor_order declaredPts Option.none))
  else if 2 ≤ compPts.length then .ok (flipLine (_nearest_neighbor_order compPts Option.none))
  else coordsFallback r

/-! ### Validation and the stop-import pipeline (`import_stops`,
main.py 1402-1473, with the validators of main.py 482-575) -/

/-- `validate_stop_id` (main.py 498-513). -/
def validate_stop_id (v : Py) : Except String String :=
  if !v.truthy then .error "stop_id is required."
  else
    let s := pyStrip v.strOf
    if s = "" then .error "stop_id cannot be empty."
    else if 50 < s.length then .error "stop_id too long. Maximum 50 characters."
    else if !(s.toList.all (fun c => isWordChar c || c = '-')) then
      .error "stop_id can only contain letters, numbers, hyphens, and underscores."
    else .ok s

/-- `validate_name` (main.py 563-575). -/
def validate_name (v : Py) (field : String) : Except String String :=
  if !v.truthy then .error (field ++ " is required.")
  else
    let s := pyStrip v.strOf
    if s = "" then .error (field ++ " cannot be empty.")
    else if 200 < s.length then .error (field ++ " too long. Maximum 200 characters.")
    else .ok s

/-- `validate_coordinates` (main.py 482-496). -/
def validate_coordinates (lat lon : Py) : Except String (ℚ × ℚ) :=
  match lat.float?, lon.float? with
  | some la, some lo =>
    if ¬(-90 ≤ la ∧ la ≤ 90) then .error "Invalid latitude. Must be between -90 and 90."
    else if ¬(-180 ≤ lo ∧ lo ≤ 180) then .error "Invalid longitude. Must be between -180 and 180."
    else .ok (la, lo)
  | _, _ => .error "Invalid coordinate format. Must be numeric."

/-- `_norm_bool` (main.py 696-703). -/
def _norm_bool (v : Py) (dflt : Bool) : Bool :=
  match v with
  | .bool b => b
  | .num _ q => decide (q ≠ 0)
  | .str s => let t := (pyStrip s).toLower; t = "true" || t = "1" || t = "yes" || t = "y"
  | _ => dflt

/-- Round to the nearest integer, ties to even (the rounding of
`format(x, '.6f')`). -/
def roundHalfEven (q : ℚ) : Int :=
  let f := ⌊q⌋
  let r := q - (f : ℚ)
  if r < 1 / 2 then f
  else if 1 / 2 < r then f + 1
  else if f % 2 = 0 then f else f + 1

/-- Left-pad a digit string to six characters. -/
def pad6 (s : String) : String := ⟨List.replicate (6 - s.length) '0'⟩ ++ s

/-- Python `f"{q:.6f}"` fixed-point formatting of an exact value. -/
def fmt6 (q : ℚ) : String :=
  let n := roundHalfEven (q * 1000000)
  let a := n.natAbs
  (if n < 0 then "-" else "") ++ toString (a / 1000000) ++ "." ++ pad6 (toString (a % 1000000))

/-- Python `dict.get` on a parsed JSON object (later duplicate keys
override earlier ones, as in the dict `json.loads` builds). -/
def dictGet (kvs : List (String × Py)) (k : String) : Py :=
  match kvs.reverse.find? (fun kv => kv.1 = k) with
  | some kv => kv.2
  | Option.none => .null

/-- Is this value Python `None`? -/
def isNull : Py → Bool
  | .null => true
  | _ => false

/-- The normalized CSV row `import_stops` stores for a validated item
(main.py 1444-1451). -/
def importRow (sid nm : String) (lat lon : ℚ) (routes_list : List String) (acc : Bool) : Row :=
  [("stop_id", sid), ("name", nm), ("latitude", fmt6 lat), ("longitude", fmt6 lon),
   ("routes", json_dumps_strs routes_list), ("accessibility", if acc then "True" else "False")]

/-- Validate one submitted item (loop body of main.py 1410-1457);
`i` is its 0-based position (messages are 1-based).  Returns the stop
id and normalized row, or the recorded per-row error message. -/
def validateItem (i : Nat) (obj : Py) : Except String (String × Row) :=
  match obj with
  | .dict kvs =>
    (match validate_stop_id (pyOr (dictGet kvs "stop_id") (dictGet kvs "id")) with
     | .error e => .error ("Row " ++ toString (i + 1) ++ ": " ++ e)
     | .ok sid =>
       match validate_name (pyOr (dictGet kvs "name") (dictGet kvs "stop_name")) "stop name" with
       | .error e => .error ("Row " ++ toString (i + 1) ++ ": " ++ e)
       | .ok nm =>
         let lat_raw := pyOr (pyOr (dictGet kvs "latitude") (dictGet kvs "lat")) (dictGet kvs "stop_lat")
         let lon_raw := pyOr (pyOr (dictGet kvs "longitude") (dictGet kvs "lon")) (dictGet kvs "stop_lon")
         if isNull lat_raw || isNull lon_raw then
           .error ("Row " ++ toString (i + 1) ++ " (stop_id: " ++ sid ++ "): Missing latitude or longitude")
         else
           match validate_coordinates lat_raw lon_raw with
           | .error e => .error ("Row " ++ toString (i + 1) ++ ": " ++ e)
           | .ok (lat, lon) =>
             let routes_list :=
               match dictGet kvs "routes" with
               | .str s => _parse_list (.str s)
               | .list xs => xs.map Py.strOf
               | _ => []
             let acc := _norm_bool (dictGet kvs "accessibility") true
             .ok (sid, importRow sid nm lat lon routes_list acc))
  | _ => .error ("Row " ++ toString (i + 1) ++ ": Must be an object/dictionary")

/-- Keyed upsert into an insertion-ordered mapping (`keep[sid] = row`):
an existing key keeps its position, its value replaced; a new key is
appended. -/
def upsertKey (m : List (String × Row)) (k : String) (r : Row) : List (String × Row) :=
  match m with
  | [] => [(k, r)]
  | (k', r') :: rest => if k' = k then (k, r) :: rest else (k', r') :: upsertKey rest k r

/-- The initial `keep` dictionary over existing rows (main.py 1405):
keyed by `str(r.get("stop_id"))`, rows with a falsy id dropped, later
rows overriding earlier ones. -/
def keyExisting (existing : List Row) : List (String × Row) :=
  existing.foldl
    (fun m r =>
      if (rowGet r "stop_id").truthy then upsertKey m (rowGet r "stop_id").strOf r else m) []

/-- One step of the validation loop, accumulating the `keep` mapping,
the recorded per-row error messages and the processed count. -/
def importStep (acc : List (String × Row) × List String × Nat) (iobj : Nat × Py) :
    List (String × Row) × List String × Nat :=
  match validateItem iobj.1 iobj.2 with
  | .error e => (acc.1, acc.2.1 ++ [e], acc.2.2)
  | .ok (sid, row) => (upsertKey acc.1 sid row, acc.2.1, acc.2.2 + 1)

/-- Result of a successful import (the persisted rows plus the response
counters; `warnings` is the response's truncated error list). -/
structure ImportOutcome where
  rows : List Row
  imported : Nat
  saved : Nat
  processed : Nat
  warnings : List String
deriving DecidableEq

/-- `import_stops` (main.py 1402-1473), starting after payload
decoding: validates items one by one, rejects the whole batch when the
error count exceeds half the submitted items (writing nothing), and
otherwise persists `keep`'s rows.  `existing` is the table read from
disk; in `replace` mode it is ignored. -/
def import_stops (mode : String) (existing : List Row) (data : List Py) :
    Except String ImportOutcome :=
  let existing := if mode = "append" then existing else []
  let res := data.enum.foldl importStep (keyExisting existing, [], 0)
  let errs := res.2.1
  if errs ≠ [] ∧ data.length < 2 * errs.length then
    .error ("Too many validation errors (" ++ toString errs.length ++ "): " ++
      String.intercalate "; " (errs.take 5))
  else
    let rows := res.1.map (fun kv => kv.2)
    .ok ⟨rows, data.length, rows.length, res.2.2, errs.take 10⟩

/-- Number of submitted items that fail validation. -/
def countInvalid (data : List Py) : Nat :=
  (data.enum.filterMap (fun ip =>
    match validateItem ip.1 ip.2 with
    | .error e => some e
    | .ok _ => Option.none)).length

/-! ### Header computation on table rewrites (`add_stop` main.py
1113-1132, `import_stops` main.py 1466-1467) -/

/-- Canonical stop-table schema (main.py 477). -/
def BUS_STOPS_FIELDS : List String :=
  ["stop_id", "name", "latitude", "longitude", "routes", "accessibility"]

/-- Order-preserving deduplication (the membership content of the
Python set `{fn for r in rows for fn in r.keys()}`). -/
def dedupList (l : List String) : List String :=
  setUnion [] l

/-- All field names of all rows, in row order. -/
def rowKeys (rows : List Row) : List String :=
  rows.flatMap (fun r => r.map (fun kv => kv.1))

/-- The header `add_stop` writes (main.py 1114-1129).  Python
linearises the field-name set with `list(set)`, whose order is
unspecified (string hashing is randomised per process); `perm` stands
for the arbitrary enumeration order the set produces and is constrained
by the theorems to be a permutation of the distinct existing keys. -/
def add_stop_fieldnames (rows : List Row) (perm : List String) : List String :=
  if rows.isEmpty then BUS_STOPS_FIELDS
  else BUS_STOPS_FIELDS.foldl (fun fields fn => if fn ∈ fields then fields else fields ++ [fn]) perm

/-- The header `import_stops` writes (main.py 1467): the default schema
for a previously empty table, otherwise one `list(set)` linearization
(`perm2`) of canonical-plus-existing field names. -/
def import_stops_fieldnames (existing : List Row) (perm2 : List String) : List String :=
  if existing.isEmpty then BUS_STOPS_FIELDS else perm2

/-! ### Write locking and atomic replace (`_write_csv`, main.py
448-473) -/

/-- The three tables backed by CSV files. -/
inductive TableFile
  | busStops
  | routes
  | vehicles
deriving DecidableEq

/-- Which mutual-exclusion lock a `_write_csv` call for the given table
acquires.  The source has a single module-level `_csv_lock =
threading.Lock()` used by every write, so every table maps to the same
lock. -/
def lockIndex (_ : TableFile) : Nat := 0

/-- The sequence of `(main file content, temp file content)` states a
writer passes through: the temp file is written (byte by byte) and then
renamed over the target in one atomic step.  A concurrent reader of the
main file observes exactly one of these states' first components. -/
def writeStates (old new : List Char) : List (List Char × Option (List Char)) :=
  (old, Option.none) ::
    (List.range (new.length + 1)).map (fun k => (old, some (new.take k))) ++
    [(new, Option.none)]

/-- Does the value fall under one of `_parse_list`'s handled input
types (`None`, `list`, `str`)? -/
def pyIsNLS : Py → Bool
  | .null => true
  | .str _ => true
  | .list _ => true
  | _ => false

/-- The recorded error message of one submitted item, when invalid. -/
def errOf (ip : Nat × Py) : Option String :=
  match validateItem ip.1 ip.2 with
  | .error e => some e
  | .ok _ => Option.none

/-- The keyed normalized row of one submitted item, when valid. -/
def validRowOf (ip : Nat × Py) : Option (String × Row) :=
  match validateItem ip.1 ip.2 with
  | .ok sr => some sr
  | .error _ => Option.none

/-- The `keep`-building part of the validation loop, in isolation. -/
def keepFold (l : List (Nat × Py)) (k : List (String × Row)) : List (String × Row) :=
  l.foldl (fun acc ip =>
    match validRowOf ip with
    | some sr => upsertKey acc sr.1 sr.2
    | Option.none => acc) k

/-- The last valid submitted item carrying the given stop id, if any
(specification-side description of intra-batch last-write-wins). -/
def lastValidFor (data : List Py) (sid : String) : Option Row :=
  (data.enum.filterMap (fun ip =>
    match validRowOf ip with
    | some (s, r) => if s = sid then some r else Option.none
    | Option.none => Option.none)).getLast?

/-- The last existing row keyed (by its truthy `stop_id` string) to the
given id, if any. -/
def lastExistingFor (existing : List Row) (sid : String) : Option Row :=
  (existing.filterMap (fun r =>
    if (rowGet r "stop_id").truthy ∧ (rowGet r "stop_id").strOf = sid then some r
    else Option.none)).getLast?

/-- Lookup in the keyed `keep` mapping (first occurrence of the key;
keys are unique by construction). -/
def lookupKeyR : List (String × Row) → String → Option Row
  | [], _ => Option.none
  | kv :: rest, k => if kv.1 = k then some kv.2 else lookupKeyR rest k

/-- Invariant: every row stored in `keep` carries its own key in its
`stop_id` field. -/
def RowKeyInv (m : List (String × Row)) : Prop :=
  ∀ kv ∈ m, lookupGet kv.2 "stop_id" = some kv.1

/-- Minimal-distance chain property: each element of the list is at
minimal squared distance from its predecessor among that predecessor's
not-yet-visited points (itself and everything after it). -/
def ChainMin (prev : ℚ × ℚ) : List (ℚ × ℚ) → Prop
  | [] => True
  | x :: xs => (∀ q ∈ x :: xs, d2 prev x ≤ d2 prev q) ∧ ChainMin x xs

/-!
## Theorems

Helper lemmas first, then one theorem per claim (with witnesses and
counterexamples where required).
-/

/-- Membership in a set after one insertion. -/
theorem mem_setInsert {a x : String} {l : List String} :
    a ∈ setInsert l x ↔ a ∈ l ∨ a = x := by
  unfold setInsert
  by_cases hx : x ∈ l
  · rw [if_pos hx]
    constructor
    · exact Or.inl
    · rintro (h | rfl)
      · exact h
      · exact hx
  · rw [if_neg hx]
    simp

/-- Membership in a set union. -/
theorem mem_setUnion {a : String} :
    ∀ (other l : List String), a ∈ setUnion l other ↔ a ∈ l ∨ a ∈ other := by
  intro other
  induction other with
  | nil => intro l; simp [setUnion]
  | cons x xs ih =>
    intro l
    simp only [setUnion, List.foldl_cons] at *
    rw [ih]
    rw [mem_setInsert]
    simp only [List.mem_cons]
    tauto

/-- Insertion into a sorted list preserves membership. -/
theorem mem_insertSorted {a x : String} :
    ∀ (l : List String), a ∈ insertSorted x l ↔ a = x ∨ a ∈ l := by
  intro l
  induction l with
  | nil => simp [insertSorted]
  | cons y ys ih =>
    simp only [insertSorted]
    by_cases h : strLeB x y = true
    · rw [if_pos h]
      simp
    · rw [if_neg h]
      simp only [List.mem_cons, ih]
      tauto

/-- Sorting preserves membership. -/
theorem mem_sortStrs {a : String} : ∀ (l : List String), a ∈ sortStrs l ↔ a ∈ l := by
  intro l
  induction l with
  | nil => simp [sortStrs]
  | cons x xs ih =>
    simp only [sortStrs, List.foldr_cons] at *
    rw [mem_insertSorted, ih, List.mem_cons]

/-- The code-point comparison is total. -/
theorem charListLe_total : ∀ as bs : List Char, charListLe as bs = true ∨ charListLe bs as = true := by
  intro as
  induction as with
  | nil => intro bs; exact Or.inl rfl
  | cons a as ih =>
    intro bs
    cases bs with
    | nil => exact Or.inr rfl
    | cons b bs =>
      simp only [charListLe]
      by_cases h1 : a.toNat < b.toNat
      · left; rw [if_pos h1]
      · by_cases h2 : b.toNat < a.toNat
        · right; rw [if_pos h2]
        · rw [if_neg h1, if_neg h2, if_neg h2, if_neg h1]
          exact ih bs

/-- The code-point comparison is transitive. -/
theorem charListLe_trans :
    ∀ as bs cs : List Char, charListLe as bs = true → charListLe bs cs = true →
      charListLe as cs = true := by
  intro as
  induction as with
  | nil => intro bs cs _ _; rfl
  | cons a as ih =>
    intro bs cs hab hbc
    cases bs with
    | nil => simp [charListLe] at hab
    | cons b bs =>
      cases cs with
      | nil => simp [charListLe] at hbc
      | cons c cs =>
        simp only [charListLe] at hab hbc ⊢
        by_cases h1 : a.toNat < b.toNat <;> by_cases h2 : b.toNat < c.toNat
        · rw [if_pos (by omega : a.toNat < c.toNat)]
        · by_cases h3 : c.toNat < b.toNat
          · rw [if_neg h2, if_pos h3] at hbc
            simp at hbc
          · rw [if_pos (by omega : a.toNat < c.toNat)]
        · by_cases h3 : b.toNat < a.toNat
          · rw [if_neg h1, if_pos h3] at hab
            simp at hab
          · have : a.toNat = b.toNat := by omega
            rw [if_pos (by omega : a.toNat < c.toNat)]
        · by_cases h3 : b.toNat < a.toNat
          · rw [if_neg h1, if_pos h3] at hab
            simp at hab
          · by_cases h4 : c.toNat < b.toNat
            · rw [if_neg h2, if_pos h4] at hbc
              simp at hbc
            · rw [if_neg h1, if_neg h3] at hab
              rw [if_neg h2, if_neg h4] at hbc
              rw [if_neg (by omega : ¬a.toNat < c.toNat), if_neg (by omega : ¬c.toNat < a.toNat)]
              exact ih bs cs hab hbc

/-- Inserting into an ascending list keeps it ascending. -/
theorem insertSorted_pairwise {x : String} :
    ∀ l : List String, l.Pairwise (fun a b => strLeB a b = true) →
      (insertSorted x l).Pairwise (fun a b => strLeB a b = true) := by
  intro l
  induction l with
  | nil => intro _; simp [insertSorted]
  | cons y ys ih =>
    intro hp
    rw [List.pairwise_cons] at hp
    simp only [insertSorted]
    by_cases h : strLeB x y = true
    · rw [if_pos h]
      refine List.Pairwise.cons ?_ (List.Pairwise.cons hp.1 hp.2)
      intro b hb
      rcases List.mem_cons.mp hb with rfl | hb
      · exact h
      · exact charListLe_trans _ _ _ h (hp.1 b hb)
    · rw [if_neg h]
      refine List.Pairwise.cons ?_ (ih hp.2)
      intro b hb
      rcases (mem_insertSorted ys).mp hb with rfl | hb
      · rcases charListLe_total y.toList b.toList with hyb | hby
        · exact hyb
        · exact absurd hby h
      · exact hp.1 b hb

/-- The sort output is ascending. -/
theorem sortStrs_pairwise (l : List String) :
    (sortStrs l).Pairwise (fun a b => strLeB a b = true) := by
  induction l with
  | nil => simp [sortStrs]
  | cons x xs ih => exact insertSorted_pairwise _ ih

/-- Set insertion keeps the list duplicate-free. -/
theorem setInsert_nodup {l : List String} {x : String} (h : l.Nodup) :
    (setInsert l x).Nodup := by
  unfold setInsert
  by_cases hx : x ∈ l
  · rwa [if_pos hx]
  · rw [if_neg hx]
    simpa [List.nodup_append] using ⟨h, fun hmem => hx hmem⟩

/-- Set union keeps the accumulated list duplicate-free. -/
theorem setUnion_nodup {other : List String} :
    ∀ {l : List String}, l.Nodup → (setUnion l other).Nodup := by
  induction other with
  | nil => intro l h; simpa [setUnion] using h
  | cons x xs ih =>
    intro l h
    simp only [setUnion, List.foldl_cons] at *
    exact ih (setInsert_nodup h)

/-- Sorted insertion of a fresh element keeps the list
duplicate-free. -/
theorem insertSorted_nodup {x : String} :
    ∀ {l : List String}, l.Nodup → x ∉ l → (insertSorted x l).Nodup := by
  intro l
  induction l with
  | nil => intro _ _; simp [insertSorted]
  | cons y ys ih =>
    intro h hx
    simp only [insertSorted]
    by_cases hle : strLeB x y = true
    · rw [if_pos hle]
      exact List.Pairwise.cons (fun b hb hxb => hx (hxb ▸ hb)) h
    · rw [if_neg hle]
      rw [List.nodup_cons] at h
      refine List.Pairwise.cons ?_ (ih h.2 (fun hm => hx (List.mem_cons_of_mem _ hm)))
      intro b hb hyb
      rcases (mem_insertSorted ys).mp hb with rfl | hbm
      · exact hx (hyb ▸ List.mem_cons_self _ _)
      · exact h.1 (hyb ▸ hbm)

/-- Sorting a duplicate-free list keeps it duplicate-free. -/
theorem sortStrs_nodup : ∀ {l : List String}, l.Nodup → (sortStrs l).Nodup := by
  intro l
  induction l with
  | nil => intro _; simp [sortStrs]
  | cons x xs ih =>
    intro h
    rw [List.nodup_cons] at h
    exact insertSorted_nodup (ih h.2) (fun hm => h.1 ((mem_sortStrs xs).mp hm))

/-- Membership is preserved by the append-if-new folding step. -/
theorem mem_foldl_extend {a : String} :
    ∀ (l : List String) (acc : List String), a ∈ acc →
      a ∈ l.foldl (fun fields fn => if fn ∈ fields then fields else fields ++ [fn]) acc := by
  intro l
  induction l with
  | nil => intro acc h; simpa using h
  | cons x xs ih =>
    intro acc h
    simp only [List.foldl_cons]
    by_cases hx : x ∈ acc
    · simpa [hx] using ih acc h
    · exact ih _ (by simp [hx, h])

/-- Every folded-in element ends up in the append-if-new fold. -/
theorem mem_foldl_extend_of_mem {a : String} :
    ∀ (l : List String) (acc : List String), a ∈ l →
      a ∈ l.foldl (fun fields fn => if fn ∈ fields then fields else fields ++ [fn]) acc := by
  intro l
  induction l with
  | nil => intro acc h; simp at h
  | cons x xs ih =>
    intro acc h
    simp only [List.foldl_cons]
    rcases List.mem_cons.mp h with rfl | h
    · by_cases hx : a ∈ acc
      · rw [if_pos hx]; exact mem_foldl_extend xs acc hx
      · rw [if_neg hx]; exact mem_foldl_extend xs _ (by simp)
    · exact ih _ h

/-- Membership in `dedupList` is membership in the underlying list. -/
theorem mem_dedupList {a : String} (l : List String) : a ∈ dedupList l ↔ a ∈ l := by
  rw [dedupList, mem_setUnion]
  simp

/-- C9 (amended): on every table rewrite the emitted header contains
every field name occurring in any existing row and every canonical
field - no column is dropped - for any enumeration order the Python
`set` may produce; the *order* of the existing header is however not
preserved in general (see the counterexample). -/
theorem csv_fieldnames_additive :
    ∀ (rows : List Row) (perm : List String), perm.Perm (dedupList (rowKeys rows)) →
      ((∀ r ∈ rows, ∀ kv ∈ r, kv.1 ∈ add_stop_fieldnames rows perm) ∧
       (∀ f ∈ BUS_STOPS_FIELDS, f ∈ add_stop_fieldnames rows perm)) ∧
      ∀ (existing : List Row) (perm2 : List String),
        perm2.Perm (dedupList (BUS_STOPS_FIELDS ++ rowKeys existing)) →
        (∀ r ∈ existing, ∀ kv ∈ r, kv.1 ∈ import_stops_fieldnames existing perm2) ∧
        (∀ f ∈ BUS_STOPS_FIELDS, f ∈ import_stops_fieldnames existing perm2) := by
  intro rows perm hperm
  constructor
  · constructor
    · intro r hr kv hkv
      have hkey : kv.1 ∈ rowKeys rows := by
        simp only [rowKeys, List.mem_flatMap]
        exact ⟨r, hr, List.mem_map.mpr ⟨kv, hkv, rfl⟩⟩
      have hrows : ¬rows.isEmpty := by
        cases rows with
        | nil => cases hr
        | cons _ _ => simp
      have hp : kv.1 ∈ perm := hperm.mem_iff.mpr ((mem_dedupList _).mpr hkey)
      simpa [add_stop_fieldnames, hrows] using mem_foldl_extend _ _ hp
    · intro f hf
      by_cases hrows : rows.isEmpty
      · simpa [add_stop_fieldnames, hrows] using hf
      · simpa [add_stop_fieldnames, hrows] using mem_foldl_extend_of_mem _ _ hf
  · intro existing perm2 hperm2
    constructor
    · intro r hr kv hkv
      have hrows : ¬existing.isEmpty := by
        cases existing with
        | nil => cases hr
        | cons _ _ => simp
      have hkey : kv.1 ∈ BUS_STOPS_FIELDS ++ rowKeys existing := by
        refine List.mem_append_right _ ?_
        simp only [rowKeys, List.mem_flatMap]
        exact ⟨r, hr, List.mem_map.mpr ⟨kv, hkv, rfl⟩⟩
      have hp : kv.1 ∈ perm2 := hperm2.mem_iff.mpr ((mem_dedupList _).mpr hkey)
      simpa [import_stops_fieldnames, hrows] using hp
    · intro f hf
      by_cases hrows : existing.isEmpty
      · simpa [import_stops_fieldnames, hrows] using hf
      · have hp : f ∈ perm2 :=
          hperm2.mem_iff.mpr ((mem_dedupList _).mpr (List.mem_append_left _ hf))
        simpa [import_stops_fieldnames, hrows] using hp

/-- Witness for C9: a concrete extra column `extra` and a concrete
reordered set enumeration both end up fully contained in the written
headers. -/
theorem csv_fieldnames_additive_witness :
    ("extra" ∈ add_stop_fieldnames [[("extra", "1")]] ["extra"] ∧
     "stop_id" ∈ add_stop_fieldnames [[("extra", "1")]] ["extra"]) ∧
    ("z" ∈ import_stops_fieldnames [[("z", "0")]]
        ["z", "stop_id", "name", "latitude", "longitude", "routes", "accessibility"] ∧
     "routes" ∈ import_stops_fieldnames [[("z", "0")]]
        ["z", "stop_id", "name", "latitude", "longitude", "routes", "accessibility"]) := by
  have h := csv_fieldnames_additive [[("extra", "1")]] ["extra"] (by decide)
  refine ⟨⟨h.1.1 [("extra", "1")] (by decide) ("extra", "1") (by decide),
    h.1.2 "stop_id" (by decide)⟩, ?_⟩
  have h2 := h.2 [[("z", "0")]]
    ["z", "stop_id", "name", "latitude", "longitude", "routes", "accessibility"] (by decide)
  exact ⟨h2.1 [("z", "0")] (by decide) ("z", "0") (by decide), h2.2 "routes" (by decide)⟩

/-- Counterexample for C9 as stated: with existing header `["a", "b"]`
and the (legitimate) set enumeration `["b", "a"]`, the rewritten header
starts `["b", "a", ...]` - the existing field order is not preserved.
Python's `list({...})` order is unspecified (string hashing is
randomized), so no fixed order is guaranteed. -/
theorem csv_fieldnames_order_not_preserved :
    (["b", "a"] : List String).Perm (dedupList (rowKeys [[("a", "1"), ("b", "2")]])) ∧
    (rowKeys [[("a", "1"), ("b", "2")]] = ["a", "b"]) ∧
    (add_stop_fieldnames [[("a", "1"), ("b", "2")]] ["b", "a"]).take 2 ≠ ["a", "b"] := by
  exact ⟨by decide, by decide, by decide⟩

/-- C10 (amended): every `_write_csv` call acquires the same single
module-level lock, so all writers - to the same table or to different
tables - serialize with each other; and a reader of the main file
during any write observes either the fully-old or the fully-new
content, because partial content only ever exists in the temp file that
is atomically renamed over the target. -/
theorem write_lock_and_atomic :
    (∀ t1 t2 : TableFile, lockIndex t1 = lockIndex t2) ∧
    (∀ (old new : List Char) (st : List Char × Option (List Char)),
      st ∈ writeStates old new → st.1 = old ∨ st.1 = new) := by
  constructor
  · intro t1 t2; rfl
  · intro old new st hst
    rcases List.mem_cons.mp hst with rfl | h1
    · exact Or.inl rfl
    rcases List.mem_append.mp h1 with h2 | h2
    · obtain ⟨k, -, hk⟩ := List.mem_map.mp h2
      rw [← hk]
      exact Or.inl rfl
    · rw [List.mem_singleton.mp h2]
      exact Or.inr rfl

/-- Witness for C10 (amended): concrete tables and a concrete
mid-write state. -/
theorem write_lock_and_atomic_witness :
    lockIndex TableFile.busStops = lockIndex TableFile.vehicles ∧
    ((['a'], some ['b']) : List Char × Option (List Char)).1 = ['a'] ∨
      ((['a'], some ['b']) : List Char × Option (List Char)).1 = ['b', 'c'] := by
  refine Or.inl ⟨write_lock_and_atomic.1 TableFile.busStops TableFile.vehicles, ?_⟩
  have h := write_lock_and_atomic.2 ['a'] ['b', 'c'] (['a'], some ['b']) (by decide)
  rcases h with h | h
  · exact h
  · exact absurd h (by decide)

/-- Counterexample for C10 as stated: the claim asserts writers to
*different* tables do not block each other, but the stops table and the
routes table share the single global `_csv_lock`, so their writers do
block each other. -/
theorem write_lock_not_per_table :
    lockIndex TableFile.busStops = lockIndex TableFile.routes ∧
    TableFile.busStops ≠ TableFile.routes :=
  ⟨rfl, by decide⟩

/-- Inserting one edge preserves the symmetry invariant. -/
theorem mapsSym_insertEdge {m : Maps} (sid rid : String) (h : MapsSym m) :
    MapsSym (insertEdge m sid rid) := by
  intro s r
  simp only [insertEdge]
  by_cases hs : s = sid <;> by_cases hr : r = rid
  · simp [hs, hr, mem_setInsert]
  · rw [if_pos hs, if_neg hr, hs]
    simp [mem_setInsert, hr, h sid r]
  · rw [if_neg hs, if_pos hr, hr]
    simp [mem_setInsert, hs, h s rid]
  · rw [if_neg hs, if_neg hr]
    exact h s r

/-- Folding symmetry-preserving steps preserves the invariant. -/
theorem mapsSym_foldl {α : Type*} (f : Maps → α → Maps)
    (hf : ∀ m x, MapsSym m → MapsSym (f m x)) :
    ∀ (l : List α) (m : Maps), MapsSym m → MapsSym (l.foldl f m) := by
  intro l
  induction l with
  | nil => intro m h; simpa using h
  | cons x xs ih => intro m h; exact ih _ (hf m x h)

/-- Each per-row resolver step preserves symmetry. -/
theorem mapsSym_addStopRow (m : Maps) (r : Row) (h : MapsSym m) :
    MapsSym (addStopRow m r) := by
  unfold addStopRow
  by_cases hs : stopRowId r = ""
  · simpa [hs] using h
  · simp only [hs, if_neg, ite_false]
    refine mapsSym_foldl _ ?_ _ _ h
    intro m' rid h'
    by_cases hr : pyStrip rid = ""
    · simpa [hr] using h'
    · simpa [hr] using mapsSym_insertEdge _ _ h'

/-- Each per-route resolver step preserves symmetry. -/
theorem mapsSym_addRouteRow (m : Maps) (r : Row) (h : MapsSym m) :
    MapsSym (addRouteRow m r) := by
  unfold addRouteRow
  by_cases hs : routeRowId r = ""
  · simpa [hs] using h
  · simp only [hs, if_neg, ite_false]
    refine mapsSym_foldl _ ?_ _ _ h
    intro m' sid h'
    by_cases hr : pyStrip sid = ""
    · simpa [hr] using h'
    · simpa [hr] using mapsSym_insertEdge _ _ h'

/-- C4: the pair of mappings built by `_load_stop_route_mappings` is
symmetric - for every stop id `s` and route id `r`, `r` is recorded
among `s`'s routes exactly when `s` is recorded among `r`'s stops,
whichever CSV side declared the edge. -/
theorem load_stop_route_mappings_symmetric (bsRows rtRows : List Row) (s r : String) :
    r ∈ (_load_stop_route_mappings bsRows rtRows).stop_to_routes s ↔
      s ∈ (_load_stop_route_mappings bsRows rtRows).route_to_stops r := by
  have hbase : MapsSym ⟨fun _ => [], fun _ => []⟩ := by intro s r; simp
  exact mapsSym_foldl addRouteRow mapsSym_addRouteRow rtRows _
    (mapsSym_foldl addStopRow mapsSym_addStopRow bsRows _ hbase) s r

/-- A kept element of the strip-filter is non-empty. -/
theorem stripNonempty_some {x : Py} {s : String} (h : stripNonempty x = some s) : s ≠ "" := by
  unfold stripNonempty at h
  by_cases hs : pyStrip x.strOf = ""
  · simp [hs] at h
  · simp only [hs, if_neg, ite_false, Option.some.injEq] at h
    exact h ▸ hs

/-- Every element `_parse_list` returns is a non-empty string. -/
theorem parse_list_mem_ne (v : Py) (s : String) (hm : s ∈ _parse_list v) : s ≠ "" := by
  cases v with
  | null => simp [_parse_list] at hm
  | bool b => simp [_parse_list] at hm
  | num lex q => simp [_parse_list] at hm
  | dict kvs => simp [_parse_list] at hm
  | list xs =>
    simp only [_parse_list, List.mem_filterMap] at hm
    obtain ⟨y, -, hy⟩ := hm
    exact stripNonempty_some hy
  | str raw =>
    simp only [_parse_list] at hm
    by_cases h0 : pyStrip raw = ""
    · simp [h0] at hm
    rw [if_neg h0] at hm
    split at hm
    · simp only [List.mem_filterMap] at hm
      obtain ⟨y, -, hy⟩ := hm
      exact stripNonempty_some hy
    · split at hm
      · simp only [List.mem_filterMap] at hm
        obtain ⟨y, -, hy⟩ := hm
        exact stripNonempty_some hy
      · simp only [List.mem_filter, decide_eq_true_eq] at hm
        exact hm.2

/-- C5 (amended): `_parse_list` is total over all Python values (it is
a function in this model, mirroring that the Python never raises), all
returned elements are non-empty, and an input that is neither `None`
nor a list nor a string yields the empty list.  The claim's clause that
all elements have surrounding whitespace stripped is false (see
counterexample): the fallback path strips whitespace before quotes, so
quote-stripping can re-expose surrounding whitespace. -/
theorem parse_list_total_shape (v : Py) :
    (∀ s ∈ _parse_list v, s ≠ "") ∧ (pyIsNLS v = false → _parse_list v = []) := by
  refine ⟨fun s hs => parse_list_mem_ne v s hs, fun hv => ?_⟩
  cases v <;> simp_all [_parse_list, pyIsNLS]

/-- Witness for C5: a parsed element of a malformed comma list is
non-empty, and a numeric input yields the empty list. -/
theorem parse_list_total_shape_witness :
    ("a" ≠ "") ∧ _parse_list (Py.num "7" 7) = [] :=
  ⟨(parse_list_total_shape (Py.str "a,b")).1 "a" (by decide),
   (parse_list_total_shape (Py.num "7" 7)).2 rfl⟩

/-- Counterexample for C5 as stated: on input `"'a '"` the fallback
path returns the element `"a "`, which still carries surrounding
whitespace (Python strips whitespace first, then quotes, re-exposing
the inner space). -/
theorem parse_list_unstripped_element :
    _parse_list (Py.str "'a '") = ["a "] ∧ pyStrip "a " ≠ "a " :=
  ⟨by decide, by decide⟩

/-- C3 (amended): `_collect_route_stop_ids` returns a sorted (ascending
by code point), duplicate-free list that is a superset of the
resolver's `route_to_stops[rid]` entry and of the *whitespace-stripped
non-empty forms* of the route row's parsed declared stops (the raw
parsed tokens themselves can carry whitespace that the collection
strips away - see the counterexample - so the superset holds for the
stripped forms, not verbatim). -/
theorem collect_route_stop_ids_superset (rid : String) (route_row : Row)
    (stops_rows : List Row) (rts : String → List String) :
    ((∀ x ∈ _parse_list (pyOr (rowGet route_row "stops") (.str "[]")),
        pyStrip x ≠ "" → pyStrip x ∈ _collect_route_stop_ids rid route_row stops_rows rts) ∧
     (∀ s ∈ rts rid, s ∈ _collect_route_stop_ids rid route_row stops_rows rts)) ∧
    ((_collect_route_stop_ids rid route_row stops_rows rts).Pairwise
        (fun a b => strLeB a b = true) ∧
     (_collect_route_stop_ids rid route_row stops_rows rts).Nodup) := by
  refine ⟨⟨?_, ?_⟩, ?_, ?_⟩
  · intro x hx hne
    unfold _collect_route_stop_ids
    rw [mem_sortStrs, mem_setUnion]
    refine Or.inl ?_
    rw [mem_setUnion]
    refine Or.inl ?_
    rw [mem_setUnion]
    refine Or.inr ?_
    rw [List.mem_filterMap]
    exact ⟨x, hx, by simp [stripNonemptyStr, hne]⟩
  · intro s hs
    unfold _collect_route_stop_ids
    rw [mem_sortStrs, mem_setUnion]
    refine Or.inl ?_
    rw [mem_setUnion]
    exact Or.inr hs
  · exact sortStrs_pairwise _
  · exact sortStrs_nodup (setUnion_nodup (setUnion_nodup (setUnion_nodup List.nodup_nil)))

/-- Witness for C3: with a declared stop list `['a','b']` and a
resolver entry `["c"]`, both `"a"` and `"c"` are in the collected
ids. -/
theorem collect_route_stop_ids_superset_witness :
    "a" ∈ _collect_route_stop_ids "R" [("stops", "['a','b']")] []
      (fun r => if r = "R" then ["c"] else []) ∧
    "c" ∈ _collect_route_stop_ids "R" [("stops", "['a','b']")] []
      (fun r => if r = "R" then ["c"] else []) := by
  have h := collect_route_stop_ids_superset "R" [("stops", "['a','b']")] []
    (fun r => if r = "R" then ["c"] else [])
  exact ⟨h.1.1 "a" (by decide) (by decide), h.1.2 "c" (by decide)⟩

/-- Counterexample for C3 as stated: the declared stops field `"'a '"`
parses to the token `"a "`, but the collected id list only contains the
stripped `"a"` - so the result is *not* a superset of the parsed
declared stops list taken verbatim. -/
theorem collect_route_stop_ids_not_superset_verbatim :
    "a " ∈ _parse_list (pyOr (rowGet [("stops", "'a '")] "stops") (.str "[]")) ∧
    "a " ∉ _collect_route_stop_ids "R" [("stops", "'a '")] [] (fun _ => []) := by
  exact ⟨by decide, by decide⟩

/-- The fold underlying `argminKey` returns one of its inputs. -/
theorem argminFold_mem {α β : Type*} [LinearOrder β] (key : α → β) :
    ∀ (xs : List α) (x : α),
      xs.foldl (fun b a => if key a < key b then a else b) x ∈ x :: xs := by
  intro xs
  induction xs with
  | nil => intro x; simp
  | cons y ys ih =>
    intro x
    simp only [List.foldl_cons]
    by_cases hy : key y < key x
    · rw [if_pos hy]
      rcases List.mem_cons.mp (ih y) with h | h
      · simp [h]
      · simp [h]
    · rw [if_neg hy]
      rcases List.mem_cons.mp (ih x) with h | h
      · simp [h]
      · simp [h]

/-- The fold underlying `argminKey` minimizes the key. -/
theorem argminFold_le {α β : Type*} [LinearOrder β] (key : α → β) :
    ∀ (xs : List α) (x : α), ∀ b ∈ x :: xs,
      key (xs.foldl (fun b a => if key a < key b then a else b) x) ≤ key b := by
  intro xs
  induction xs with
  | nil =>
    intro x b hb
    rcases List.mem_cons.mp hb with rfl | h
    · simp
    · simp at h
  | cons y ys ih =>
    intro x b hb
    simp only [List.foldl_cons]
    have hzx : key (if key y < key x then y else x) ≤ key x := by
      by_cases hy : key y < key x
      · rw [if_pos hy]; exact le_of_lt hy
      · rw [if_neg hy]
    have hzy : key (if key y < key x then y else x) ≤ key y := by
      by_cases hy : key y < key x
      · rw [if_pos hy]
      · rw [if_neg hy]; exact le_of_not_lt hy
    have hself := ih (if key y < key x then y else x) _ (List.mem_cons_self _ _)
    rcases List.mem_cons.mp hb with rfl | hb'
    · exact le_trans hself hzx
    · rcases List.mem_cons.mp hb' with rfl | hb''
      · exact le_trans hself hzy
      · exact ih _ b (List.mem_cons_of_mem _ hb'')

/-- `argminKey` returns a member of the list. -/
theorem argminKey_mem {α β : Type*} [LinearOrder β] {key : α → β} {l : List α} {a : α}
    (h : argminKey key l = some a) : a ∈ l := by
  cases l with
  | nil => simp [argminKey] at h
  | cons x xs =>
    simp only [argminKey, Option.some.injEq] at h
    exact h ▸ argminFold_mem key xs x

/-- `argminKey` minimizes the key over the list. -/
theorem argminKey_le {α β : Type*} [LinearOrder β] {key : α → β} {l : List α} {a : α}
    (h : argminKey key l = some a) : ∀ b ∈ l, key a ≤ key b := by
  cases l with
  | nil => simp [argminKey] at h
  | cons x xs =>
    simp only [argminKey, Option.some.injEq] at h
    exact h ▸ argminFold_le key xs x

/-- `argminKey` only fails on the empty list. -/
theorem argminKey_eq_none {α β : Type*} [LinearOrder β] {key : α → β} {l : List α}
    (h : argminKey key l = Option.none) : l = [] := by
  cases l with
  | nil => rfl
  | cons x xs => simp [argminKey] at h

/-- The greedy loop visits exactly the remaining indices, and its point
sequence is a minimal-distance chain from the last visited point. -/
theorem nnLoop_spec (points : List (ℚ × ℚ)) :
    ∀ (fuel last : Nat) (remaining : List Nat), remaining.length ≤ fuel →
      (nnLoop points fuel last remaining).Perm remaining ∧
      ChainMin (points.getD last (0, 0))
        ((nnLoop points fuel last remaining).map (fun i => points.getD i (0, 0))) := by
  intro fuel
  induction fuel with
  | zero =>
    intro last remaining hlen
    have h0 : remaining = [] := List.length_eq_zero.mp (Nat.le_zero.mp hlen)
    subst h0
    exact ⟨by simp [nnLoop], by simp [nnLoop, ChainMin]⟩
  | succ f ih =>
    intro last remaining hlen
    rw [nnLoop]
    cases h : argminKey (fun i => d2 (points.getD last (0, 0)) (points.getD i (0, 0))) remaining with
    | none =>
      have h0 : remaining = [] := argminKey_eq_none h
      subst h0
      exact ⟨by simp, by simp [ChainMin]⟩
    | some i =>
      have hmem := argminKey_mem h
      have hle := argminKey_le h
      have hlen' : (remaining.erase i).length ≤ f := by
        have := List.length_erase_add_one hmem
        omega
      obtain ⟨hperm, hchain⟩ := ih i (remaining.erase i) hlen'
      refine ⟨(hperm.cons i).trans (List.perm_cons_erase hmem).symm, ?_⟩
      rw [List.map_cons]
      refine ⟨?_, hchain⟩
      intro q hq
      rcases List.mem_cons.mp hq with rfl | hq'
      · exact le_refl _
      · obtain ⟨j, hj, rfl⟩ := List.mem_map.mp hq'
        exact hle _ (List.mem_of_mem_erase (hperm.mem_iff.mp hj))

/-- Indexing `range` by `getD` reproduces the list. -/
theorem mapRangeGetD {α : Type*} (l : List α) (d : α) :
    (List.range l.length).map (fun i => l.getD i d) = l := by
  induction l with
  | nil => simp
  | cons a t ih =>
    have hcomp : (fun i => (a :: t).getD i d) ∘ Nat.succ = fun i => t.getD i d := by
      funext i
      simp [List.getD_cons_succ]
    rw [List.length_cons, List.range_succ_eq_map, List.map_cons, List.map_map, hcomp, ih,
      List.getD_cons_zero]

/-- C2: for every list of points, `_nearest_neighbor_order` called
without a start index returns a permutation of exactly the input points
(so the empty input returns the empty list); when the output is
non-empty, its head is a point of minimal longitude (ties broken by
minimal latitude), and each subsequent element is a not-yet-visited
point at minimal squared Euclidean degree-space distance from the
previously appended one (the not-yet-visited points after `k` steps
being exactly the tail of the output from position `k`, by the
permutation property). -/
theorem nearest_neighbor_order_correct (points : List (ℚ × ℚ)) :
    (_nearest_neighbor_order points Option.none).Perm points ∧
    ∀ hd tl, _nearest_neighbor_order points Option.none = hd :: tl →
      (∀ q ∈ points, hd.2 < q.2 ∨ (hd.2 = q.2 ∧ hd.1 ≤ q.1)) ∧ ChainMin hd tl := by
  by_cases hp : points.isEmpty
  · have h0 : points = [] := List.isEmpty_iff.mp hp
    subst h0
    refine ⟨by simp [_nearest_neighbor_order], ?_⟩
    intro hd tl h
    simp [_nearest_neighbor_order] at h
  · obtain ⟨s, hs⟩ : ∃ s,
        argminKey (fun i => toLex ((points.getD i (0, 0)).2, (points.getD i (0, 0)).1))
          (List.range points.length) = some s := by
      cases hr : List.range points.length with
      | nil =>
        have : points.length = 0 := by simpa using congrArg List.length hr
        rw [List.length_eq_zero] at this
        subst this
        simp at hp
      | cons x xs => exact ⟨_, rfl⟩
    have hsmem : s ∈ List.range points.length := argminKey_mem hs
    have hsle := argminKey_le hs
    have hremlen : ((List.range points.length).filter (fun i => i ≠ s)).length ≤
        points.length := le_trans (List.length_filter_le _ _) (by rw [List.length_range])
    obtain ⟨hperm, hchain⟩ :=
      nnLoop_spec points points.length s ((List.range points.length).filter (fun i => i ≠ s))
        hremlen
    have hrem_eq : (List.range points.length).filter (fun i => i ≠ s) =
        (List.range points.length).erase s := by
      rw [List.Nodup.erase_eq_filter (List.nodup_range points.length) s]
      apply List.filter_congr
      intro x _
      by_cases hxx : x = s <;> simp [hxx]
    have hidxperm :
        (s :: nnLoop points points.length s
            ((List.range points.length).filter (fun i => i ≠ s))).Perm
          (List.range points.length) := by
      refine (hperm.cons s).trans ?_
      rw [hrem_eq]
      exact (List.perm_cons_erase hsmem).symm
    have hout : _nearest_neighbor_order points Option.none =
        (s :: nnLoop points points.length s
          ((List.range points.length).filter (fun i => i ≠ s))).map
            (fun i => points.getD i (0, 0)) := by
      rw [_nearest_neighbor_order, if_neg (by simp [hp])]
      simp only [hs, Option.getD_some]
    have houtperm : (_nearest_neighbor_order points Option.none).Perm points := by
      rw [hout]
      have hmap := hidxperm.map (fun i => points.getD i (0, 0))
      rwa [mapRangeGetD] at hmap
    refine ⟨houtperm, ?_⟩
    intro hd tl heq
    rw [hout, List.map_cons] at heq
    have h1 : points.getD s (0, 0) = hd := (List.cons.injEq _ _ _ _).mp heq |>.1
    have h2 : (nnLoop points points.length s
        ((List.range points.length).filter (fun i => i ≠ s))).map
          (fun i => points.getD i (0, 0)) = tl := (List.cons.injEq _ _ _ _).mp heq |>.2
    constructor
    · intro q hq
      have hq' : q ∈ (List.range points.length).map (fun i => points.getD i (0, 0)) := by
        rw [mapRangeGetD]
        exact hq
      obtain ⟨j, hj, rfl⟩ := List.mem_map.mp hq'
      have hlex := hsle j hj
      rw [Prod.Lex.le_iff] at hlex
      rw [← h1]
      exact hlex
    · rw [← h1, ← h2]
      exact hchain

unseal Rat.sub Rat.mul Rat.add Rat.inv Rat.ofScientific in
/-- Witness for C2 at the spec's own example: stops at `(12,77)`,
`(12,77.1)`, `(12,76.9)` are ordered starting from the minimum-longitude
point `(12,76.9)` and then greedily. -/
theorem nearest_neighbor_order_correct_witness :
    (_nearest_neighbor_order
        [((12 : ℚ), (77 : ℚ)), ((12 : ℚ), (771 / 10 : ℚ)), ((12 : ℚ), (769 / 10 : ℚ))]
        Option.none).Perm
      [((12 : ℚ), (77 : ℚ)), ((12 : ℚ), (771 / 10 : ℚ)), ((12 : ℚ), (769 / 10 : ℚ))] ∧
    (∀ q ∈ [((12 : ℚ), (77 : ℚ)), ((12 : ℚ), (771 / 10 : ℚ)), ((12 : ℚ), (769 / 10 : ℚ))],
        ((769 / 10 : ℚ)) < q.2 ∨ ((769 / 10 : ℚ) = q.2 ∧ (12 : ℚ) ≤ q.1)) ∧
    ChainMin ((12 : ℚ), (769 / 10 : ℚ))
      [((12 : ℚ), (77 : ℚ)), ((12 : ℚ), (771 / 10 : ℚ))] := by
  have h := nearest_neighbor_order_correct
    [((12 : ℚ), (77 : ℚ)), ((12 : ℚ), (771 / 10 : ℚ)), ((12 : ℚ), (769 / 10 : ℚ))]
  have h2 := h.2 ((12 : ℚ), (769 / 10 : ℚ))
    [((12 : ℚ), (77 : ℚ)), ((12 : ℚ), (771 / 10 : ℚ))] (by decide)
  exact ⟨h.1, h2.1, h2.2⟩

/-- A successfully validated item's normalized row carries the item's
stop id in its `stop_id` field. -/
theorem validateItem_ok_key {i : Nat} {obj : Py} {sid : String} {row : Row}
    (h : validateItem i obj = .ok (sid, row)) : lookupGet row "stop_id" = some sid := by
  cases obj with
  | dict kvs =>
    simp only [validateItem] at h
    split at h
    · exact absurd h (by simp)
    split at h
    · exact absurd h (by simp)
    split at h
    · exact absurd h (by simp)
    split at h
    · exact absurd h (by simp)
    simp only [Except.ok.injEq, Prod.mk.injEq] at h
    rw [← h.2, ← h.1]
    simp [importRow, lookupGet]
  | null => exact absurd h (by simp [validateItem])
  | bool b => exact absurd h (by simp [validateItem])
  | num lex q => exact absurd h (by simp [validateItem])
  | str s => exact absurd h (by simp [validateItem])
  | list xs => exact absurd h (by simp [validateItem])

/-- The upserted pair is present after an upsert. -/
theorem upsertKey_self_mem (k : String) (r : Row) :
    ∀ m : List (String × Row), (k, r) ∈ upsertKey m k r := by
  intro m
  induction m with
  | nil => simp [upsertKey]
  | cons kv rest ih =>
    simp only [upsertKey]
    by_cases hk : kv.1 = k
    · rw [if_pos hk]
      exact List.mem_cons_self _ _
    · rw [if_neg hk]
      exact List.mem_cons_of_mem _ ih

/-- Everything in an upsert result was present before or is the new
pair. -/
theorem mem_upsertKey {k : String} {r : Row} :
    ∀ {m : List (String × Row)} {kv}, kv ∈ upsertKey m k r → kv ∈ m ∨ kv = (k, r) := by
  intro m
  induction m with
  | nil =>
    intro kv h
    simp [upsertKey] at h
    exact Or.inr h
  | cons kv0 rest ih =>
    intro kv h
    simp only [upsertKey] at h
    by_cases hk : kv0.1 = k
    · rw [if_pos hk] at h
      rcases List.mem_cons.mp h with rfl | h'
      · exact Or.inr rfl
      · exact Or.inl (List.mem_cons_of_mem _ h')
    · rw [if_neg hk] at h
      rcases List.mem_cons.mp h with rfl | h'
      · exact Or.inl (List.mem_cons_self _ _)
      · rcases ih h' with h'' | h''
        · exact Or.inl (List.mem_cons_of_mem _ h'')
        · exact Or.inr h''

/-- A key present before an upsert is still present after it. -/
theorem upsertKey_keeps_keys {k₀ k : String} {r : Row} :
    ∀ {m : List (String × Row)}, (∃ r₀, (k₀, r₀) ∈ m) →
      ∃ r₁, (k₀, r₁) ∈ upsertKey m k r := by
  intro m
  induction m with
  | nil =>
    rintro ⟨r₀, h⟩
    simp at h
  | cons kv0 rest ih =>
    rintro ⟨r₀, h⟩
    simp only [upsertKey]
    by_cases hk : kv0.1 = k
    · rw [if_pos hk]
      rcases List.mem_cons.mp h with heq | h'
      · have hfst : k₀ = kv0.1 := congrArg Prod.fst heq
        refine ⟨r, ?_⟩
        rw [hfst, hk]
        exact List.mem_cons_self _ _
      · exact ⟨r₀, List.mem_cons_of_mem _ h'⟩
    · rw [if_neg hk]
      rcases List.mem_cons.mp h with heq | h'
      · exact ⟨r₀, heq ▸ List.mem_cons_self _ _⟩
      · obtain ⟨r₁, h₁⟩ := ih ⟨r₀, h'⟩
        exact ⟨r₁, List.mem_cons_of_mem _ h₁⟩

/-- Lookup after an upsert. -/
theorem lookup_upsertKey (k k' : String) (r : Row) :
    ∀ m : List (String × Row),
      lookupKeyR (upsertKey m k r) k' = if k' = k then some r else lookupKeyR m k' := by
  intro m
  induction m with
  | nil =>
    simp only [upsertKey, lookupKeyR]
    by_cases hk : k = k'
    · rw [if_pos hk, if_pos hk.symm]
    · rw [if_neg hk, if_neg (fun h => hk h.symm)]
  | cons kv0 rest ih =>
    simp only [upsertKey]
    by_cases h0 : kv0.1 = k
    · rw [if_pos h0]
      simp only [lookupKeyR]
      by_cases hk : k = k'
      · rw [if_pos hk, if_pos hk.symm]
      · rw [if_neg hk, if_neg (fun h => hk h.symm)]
        rw [if_neg (by rw [h0]; exact hk)]
    · rw [if_neg h0]
      simp only [lookupKeyR]
      by_cases h1 : kv0.1 = k'
      · rw [if_pos h1]
        have hkk : ¬(k' = k) := fun hk => h0 (hk ▸ h1)
        rw [if_neg hkk, if_pos h1]
      · rw [if_neg h1, ih]
        by_cases hk : k' = k
        · rw [if_pos hk, if_pos hk]
        · rw [if_neg hk, if_neg hk, if_neg h1]

/-- A truthy `stop_id` cell means the row stores that very string. -/
theorem rowGet_truthy_stopId {r : Row} (h : (rowGet r "stop_id").truthy = true) :
    lookupGet r "stop_id" = some ((rowGet r "stop_id").strOf) := by
  unfold rowGet at *
  cases hf : r.find? (fun kv => kv.1 = "stop_id") with
  | none => rw [hf] at h; simp [Py.truthy] at h
  | some kv => simp [lookupGet, hf, Py.strOf]

/-- Upserting a row that carries its key preserves the key
invariant. -/
theorem rowKeyInv_upsert {m : List (String × Row)} {k : String} {r : Row}
    (hm : RowKeyInv m) (hr : lookupGet r "stop_id" = some k) :
    RowKeyInv (upsertKey m k r) := by
  intro kv hkv
  rcases mem_upsertKey hkv with h | rfl
  · exact hm kv h
  · exact hr

/-- The initial keyed `keep` over existing rows satisfies the key
invariant. -/
theorem rowKeyInv_keyExisting (existing : List Row) : RowKeyInv (keyExisting existing) := by
  unfold keyExisting
  suffices h : ∀ (l : List Row) (m : List (String × Row)), RowKeyInv m →
      RowKeyInv (l.foldl (fun m r =>
        if (rowGet r "stop_id").truthy then upsertKey m (rowGet r "stop_id").strOf r else m) m) by
    exact h existing [] (fun kv hkv => absurd hkv (List.not_mem_nil kv))
  intro l
  induction l with
  | nil => intro m hm; exact hm
  | cons r0 rest ih =>
    intro m hm
    simp only [List.foldl_cons]
    by_cases ht : (rowGet r0 "stop_id").truthy = true
    · rw [if_pos ht]
      exact ih _ (rowKeyInv_upsert hm (rowGet_truthy_stopId ht))
    · rw [if_neg ht]
      exact ih _ hm

/-- The `keep` fold preserves the key invariant. -/
theorem rowKeyInv_keepFold (l : List (Nat × Py)) :
    ∀ m : List (String × Row), RowKeyInv m → RowKeyInv (keepFold l m) := by
  induction l with
  | nil => intro m hm; exact hm
  | cons ip rest ih =>
    intro m hm
    simp only [keepFold, List.foldl_cons]
    cases hv : validRowOf ip with
    | none => exact ih m hm
    | some sr =>
      refine ih _ (rowKeyInv_upsert hm ?_)
      unfold validRowOf at hv
      cases hvi : validateItem ip.1 ip.2 with
      | error e => rw [hvi] at hv; cases hv
      | ok sr' =>
        rw [hvi] at hv
        cases hv
        exact validateItem_ok_key hvi

/-- Decomposition of the validation loop into keep, errors and
count. -/
theorem importStep_foldl :
    ∀ (l : List (Nat × Py)) (k : List (String × Row)) (e : List String) (p : Nat),
      l.foldl importStep (k, e, p) =
        (keepFold l k, e ++ l.filterMap errOf, p + (l.filterMap validRowOf).length) := by
  intro l
  induction l with
  | nil => intro k e p; simp [keepFold]
  | cons x xs ih =>
    intro k e p
    simp only [List.foldl_cons, keepFold]
    cases hv : validateItem x.1 x.2 with
    | error msg =>
      have he : errOf x = some msg := by simp [errOf, hv]
      have hr : validRowOf x = Option.none := by simp [validRowOf, hv]
      have hstep : importStep (k, e, p) x = (k, e ++ [msg], p) := by
        simp [importStep, hv]
      rw [hstep, ih]
      simp only [keepFold, List.filterMap_cons, he, hr]
      refine congrArg _ ?_
      refine congrArg₂ _ ?_ rfl
      rw [List.append_assoc]
      rfl
    | ok sr =>
      have he : errOf x = Option.none := by simp [errOf, hv]
      have hr : validRowOf x = some sr := by simp [validRowOf, hv]
      have hstep : importStep (k, e, p) x = (upsertKey k sr.1 sr.2, e, p + 1) := by
        simp [importStep, hv]
      rw [hstep, ih]
      simp only [keepFold, List.filterMap_cons, he, hr, hv, List.length_cons]
      refine congrArg₂ _ rfl (congrArg₂ _ rfl ?_)
      omega

/-- `countInvalid` counts the recorded error messages. -/
theorem countInvalid_eq (data : List Py) :
    countInvalid data = (data.enum.filterMap errOf).length := rfl

/-- `Option.orElse` chains associate. -/
theorem optOrElse_assoc (a b c : Option Row) : ((a <|> b) <|> c) = (a <|> (b <|> c)) := by
  cases a <;> simp

/-- The last element of a cons cell, as an `orElse` chain. -/
theorem getLast?_cons_orElse (a : Row) :
    ∀ l : List Row, (a :: l).getLast? = (l.getLast? <|> some a) := by
  intro l
  induction l generalizing a with
  | nil => simp
  | cons b l ih =>
    rw [List.getLast?_cons_cons, ih b]
    have hb : (b :: l).getLast? = (l.getLast? <|> some b) := ih b
    cases hl : l.getLast? with
    | none => simp [hb, hl]
    | some x => simp [hb, hl]

/-- Keys survive the `keep` fold. -/
theorem keepFold_keeps_keys {k₀ : String} :
    ∀ (l : List (Nat × Py)) (m : List (String × Row)),
      (∃ r₀, (k₀, r₀) ∈ m) → ∃ r₁, (k₀, r₁) ∈ keepFold l m := by
  intro l
  induction l with
  | nil => intro m h; exact h
  | cons x xs ih =>
    intro m h
    simp only [keepFold, List.foldl_cons]
    cases hv : validRowOf x with
    | none => exact ih m h
    | some sr => exact ih _ (upsertKey_keeps_keys h)

/-- Every valid item's key appears in the final `keep`. -/
theorem keepFold_key_of_valid {sid : String} {row : Row} :
    ∀ (l : List (Nat × Py)) (m : List (String × Row)) (ip : Nat × Py), ip ∈ l →
      validRowOf ip = some (sid, row) → ∃ r₁, (sid, r₁) ∈ keepFold l m := by
  intro l
  induction l with
  | nil => intro m ip h; simp at h
  | cons y ys ih =>
    intro m ip hip hv
    simp only [keepFold, List.foldl_cons]
    rcases List.mem_cons.mp hip with rfl | hip'
    · rw [hv]
      exact keepFold_keeps_keys ys _ ⟨row, upsertKey_self_mem sid row m⟩
    · exact ih _ ip hip' hv

/-- Looking up a key in the final `keep` yields the last valid item
carrying that key, falling back to the initial mapping. -/
theorem lookup_keepFold (sid : String) :
    ∀ (l : List (Nat × Py)) (m : List (String × Row)),
      lookupKeyR (keepFold l m) sid =
        ((l.filterMap (fun ip =>
            match validRowOf ip with
            | some (s, r) => if s = sid then some r else Option.none
            | Option.none => Option.none)).getLast? <|> lookupKeyR m sid) := by
  intro l
  induction l with
  | nil => intro m; simp [keepFold]
  | cons x xs ih =>
    intro m
    simp only [keepFold, List.foldl_cons, List.filterMap_cons]
    cases hv : validRowOf x with
    | none =>
      rw [← keepFold]
      exact ih m
    | some sr =>
      obtain ⟨s, r⟩ := sr
      dsimp only
      rw [← keepFold]
      by_cases hs : s = sid
      · rw [if_pos hs]
        rw [ih (upsertKey m s r), lookup_upsertKey s sid r m, if_pos hs.symm,
          getLast?_cons_orElse, optOrElse_assoc]
        cases hx : (xs.filterMap (fun ip =>
            match validRowOf ip with
            | some (s, r) => if s = sid then some r else Option.none
            | Option.none => Option.none)).getLast? <;> simp
      · rw [if_neg hs]
        rw [ih (upsertKey m s r), lookup_upsertKey s sid r m,
          if_neg (fun h => hs h.symm)]

/-- Looking up a key in the keyed existing rows yields the last
existing row with that (truthy) id. -/
theorem lookup_keyExisting (sid : String) (existing : List Row) :
    lookupKeyR (keyExisting existing) sid = lastExistingFor existing sid := by
  unfold keyExisting lastExistingFor
  suffices h : ∀ (l : List Row) (m : List (String × Row)),
      lookupKeyR (l.foldl (fun m r =>
          if (rowGet r "stop_id").truthy then upsertKey m (rowGet r "stop_id").strOf r else m) m)
        sid =
      ((l.filterMap (fun r =>
          if (rowGet r "stop_id").truthy ∧ (rowGet r "stop_id").strOf = sid then some r
          else Option.none)).getLast? <|> lookupKeyR m sid) by
    rw [h existing []]
    cases hx : (existing.filterMap (fun r =>
        if (rowGet r "stop_id").truthy ∧ (rowGet r "stop_id").strOf = sid then some r
        else Option.none)).getLast? <;> simp [lookupKeyR]
  intro l
  induction l with
  | nil => intro m; simp
  | cons r0 rest ih =>
    intro m
    simp only [List.foldl_cons, List.filterMap_cons]
    by_cases ht : (rowGet r0 "stop_id").truthy = true
    · rw [if_pos ht]
      by_cases hk : (rowGet r0 "stop_id").strOf = sid
      · rw [if_pos ⟨ht, hk⟩]
        rw [ih (upsertKey m (rowGet r0 "stop_id").strOf r0),
          lookup_upsertKey _ sid r0 m, if_pos hk.symm, getLast?_cons_orElse, optOrElse_assoc]
        cases hx : (rest.filterMap (fun r =>
            if (rowGet r "stop_id").truthy ∧ (rowGet r "stop_id").strOf = sid then some r
            else Option.none)).getLast? <;> simp
      · rw [if_neg (fun hc => hk hc.2)]
        rw [ih (upsertKey m (rowGet r0 "stop_id").strOf r0),
          lookup_upsertKey _ sid r0 m, if_neg (fun h => hk h.symm)]
    · rw [if_neg ht, if_neg (fun hc => ht hc.1)]
      exact ih m

/-- Searching the persisted rows by `stop_id` agrees with keyed lookup,
under the key invariant. -/
theorem rows_find_eq_lookup (sid : String) :
    ∀ m : List (String × Row), RowKeyInv m →
      ((m.map (fun kv => kv.2)).find?
          (fun r => lookupGet r "stop_id" = some sid)) = lookupKeyR m sid := by
  intro m
  induction m with
  | nil => intro _; simp [lookupKeyR]
  | cons kv rest ih =>
    intro hm
    have hkey : lookupGet kv.2 "stop_id" = some kv.1 := hm kv (List.mem_cons_self _ _)
    simp only [List.map_cons, List.find?_cons, lookupKeyR]
    by_cases hk : kv.1 = sid
    · rw [if_pos hk]
      have : (decide (lookupGet kv.2 "stop_id" = some sid)) = true := by
        simp [hkey, hk]
      rw [this]
    · rw [if_neg hk]
      have : (decide (lookupGet kv.2 "stop_id" = some sid)) = false := by
        simp only [decide_eq_false_iff_not, hkey]
        intro hcon
        exact hk (Option.some.inj hcon)
      rw [this]
      exact ih (fun kv' h' => hm kv' (List.mem_cons_of_mem _ h'))

/-- A row whose `stop_id` cell holds `v` reads back as the Python
string `v`. -/
theorem rowGet_of_lookupGet {r : Row} {k : String} {v : String}
    (h : lookupGet r k = some v) : rowGet r k = .str v := by
  unfold lookupGet at h
  unfold rowGet
  cases hf : r.find? (fun kv => kv.1 = k) with
  | none => rw [hf] at h; simp at h
  | some kv =>
    rw [hf] at h
    simp only [Option.map_some', Option.some.injEq] at h
    dsimp only
    rw [h]

/-- C7: `import_stops` fails (with a 400-style validation error and
without writing anything - the persisted rows exist only in the `ok`
result) exactly when there is at least one per-row validation error and
the error count exceeds half the number of submitted items; on success
every item that validated is present in the committed rows under its
stop id, and each invalid item is recorded as a per-row error (the
response surfaces the first 10 of them). -/
theorem import_stops_threshold (mode : String) (existing : List Row) (data : List Py) :
    ((∃ e, import_stops mode existing data = .error e) ↔
      (0 < countInvalid data ∧ data.length < 2 * countInvalid data)) ∧
    ∀ out, import_stops mode existing data = .ok out →
      (∀ ip ∈ data.enum, ∀ sid row, validateItem ip.1 ip.2 = .ok (sid, row) →
        ∃ r ∈ out.rows, rowGet r "stop_id" = .str sid) ∧
      out.warnings.length = min (countInvalid data) 10 := by
  simp only [import_stops]
  rw [importStep_foldl]
  simp only [List.nil_append]
  constructor
  · constructor
    · rintro ⟨e, he⟩
      by_cases hc : data.enum.filterMap errOf ≠ [] ∧
          data.length < 2 * (data.enum.filterMap errOf).length
      · rw [countInvalid_eq]
        exact ⟨List.length_pos.mpr hc.1, hc.2⟩
      · rw [if_neg hc] at he
        exact absurd he (by simp)
    · rintro ⟨hE, hlt⟩
      rw [countInvalid_eq] at hE hlt
      rw [if_pos ⟨List.length_pos.mp hE, hlt⟩]
      exact ⟨_, rfl⟩
  · intro out hout
    by_cases hc : data.enum.filterMap errOf ≠ [] ∧
        data.length < 2 * (data.enum.filterMap errOf).length
    · rw [if_pos hc] at hout
      exact absurd hout (by simp)
    · rw [if_neg hc] at hout
      have hX := Except.ok.inj hout
      subst hX
      constructor
      · intro ip hip sid row hv
        have hv' : validRowOf ip = some (sid, row) := by simp [validRowOf, hv]
        obtain ⟨r₁, hr₁⟩ := keepFold_key_of_valid data.enum
          (keyExisting (if mode = "append" then existing else [])) ip hip hv'
        have hinv := rowKeyInv_keepFold data.enum
          (keyExisting (if mode = "append" then existing else []))
          (rowKeyInv_keyExisting _)
        exact ⟨r₁, List.mem_map.mpr ⟨(sid, r₁), hr₁, rfl⟩,
          rowGet_of_lookupGet (hinv (sid, r₁) hr₁)⟩
      · simp only [List.length_take, countInvalid_eq, Nat.min_comm]

unseal Rat.sub Rat.mul Rat.add Rat.inv Rat.ofScientific in
/-- Witness for C7: a batch of one valid and one invalid item (at or
below the half threshold) commits the valid item's row and records one
per-row error. -/
theorem import_stops_threshold_witness :
    (∃ r ∈ (ImportOutcome.mk
        [[("stop_id", "S1"), ("name", "NM"), ("latitude", "1.000000"),
          ("longitude", "2.000000"), ("routes", "[]"), ("accessibility", "True")]]
        2 1 1 ["Row 2: Must be an object/dictionary"]).rows,
      rowGet r "stop_id" = Py.str "S1") ∧
    (ImportOutcome.mk
        [[("stop_id", "S1"), ("name", "NM"), ("latitude", "1.000000"),
          ("longitude", "2.000000"), ("routes", "[]"), ("accessibility", "True")]]
        2 1 1 ["Row 2: Must be an object/dictionary"]).warnings.length =
      min (countInvalid [Py.dict [("stop_id", .str "S1"), ("name", .str "NM"),
        ("latitude", .num "1" 1), ("longitude", .num "2" 2)], Py.str "junk"]) 10 := by
  have h := (import_stops_threshold "replace" []
      [Py.dict [("stop_id", .str "S1"), ("name", .str "NM"),
        ("latitude", .num "1" 1), ("longitude", .num "2" 2)], Py.str "junk"]).2
    (ImportOutcome.mk
        [[("stop_id", "S1"), ("name", "NM"), ("latitude", "1.000000"),
          ("longitude", "2.000000"), ("routes", "[]"), ("accessibility", "True")]]
        2 1 1 ["Row 2: Must be an object/dictionary"])
    rfl
  refine ⟨h.1
      (0, Py.dict [("stop_id", .str "S1"), ("name", .str "NM"),
        ("latitude", .num "1" 1), ("longitude", .num "2" 2)])
      (List.Mem.head _) "S1"
      [("stop_id", "S1"), ("name", "NM"), ("latitude", "1.000000"),
        ("longitude", "2.000000"), ("routes", "[]"), ("accessibility", "True")]
      rfl, h.2⟩

/-- C8: in `append` mode, when the batch is at or below the error
threshold, `import_stops` succeeds; the reported `imported` count is
the number of submitted items (valid or not), `saved` is the number of
persisted rows, the response carries the per-row errors (first 10), and
the persisted table is keyed by stop id with last-write-wins semantics:
the row found under any id is the last valid submitted item with that
id, or failing that the last existing row with that id. -/
theorem import_stops_append (existing : List Row) (data : List Py)
    (h : countInvalid data = 0 ∨ 2 * countInvalid data ≤ data.length) :
    ∃ out, import_stops "append" existing data = .ok out ∧
      out.imported = data.length ∧
      out.saved = out.rows.length ∧
      out.warnings.length = min (countInvalid data) 10 ∧
      ∀ sid : String,
        out.rows.find? (fun r => lookupGet r "stop_id" = some sid) =
          (lastValidFor data sid <|> lastExistingFor existing sid) := by
  simp only [import_stops]
  rw [importStep_foldl]
  simp only [List.nil_append]
  have hc : ¬(data.enum.filterMap errOf ≠ [] ∧
      data.length < 2 * (data.enum.filterMap errOf).length) := by
    rw [countInvalid_eq] at h
    rcases h with h | h
    · intro hcon
      exact hcon.1 (List.length_eq_zero.mp h)
    · intro hcon
      omega
  rw [if_neg hc]
  refine ⟨_, rfl, rfl, rfl, ?_, ?_⟩
  · simp only [List.length_take, countInvalid_eq, Nat.min_comm]
  · intro sid
    dsimp only
    simp only [if_true]
    have hinv := rowKeyInv_keepFold data.enum (keyExisting existing)
      (rowKeyInv_keyExisting existing)
    rw [rows_find_eq_lookup sid _ hinv, lookup_keepFold sid data.enum, lookup_keyExisting sid]
    rfl

unseal Rat.sub Rat.mul Rat.add Rat.inv Rat.ofScientific in
/-- Witness for C8 at the spec's own example: appending two valid and
one invalid item to a 2-row table with no id collisions yields
`imported = 3`, `saved = 4`, one per-row error and no exception. -/
theorem import_stops_append_witness :
    ∃ out, import_stops "append"
        [[("stop_id", "A"), ("name", "Alpha"), ("latitude", "1.000000"),
          ("longitude", "2.000000"), ("routes", "[]"), ("accessibility", "True")],
         [("stop_id", "B"), ("name", "Beta"), ("latitude", "3.000000"),
          ("longitude", "4.000000"), ("routes", "[]"), ("accessibility", "True")]]
        [Py.dict [("stop_id", .str "C"), ("name", .str "Gamma"),
            ("latitude", .num "10.5" (21 / 2)), ("longitude", .num "70.25" (281 / 4))],
         Py.dict [("stop_id", .str "D"), ("name", .str "Delta"),
            ("latitude", .num "11" 11), ("longitude", .num "71" 71)],
         Py.dict [("stop_id", .str "E"),
            ("latitude", .num "11" 11), ("longitude", .num "71" 71)]] = .ok out ∧
      out.imported = 3 ∧ out.saved = 4 ∧ out.warnings.length = 1 := by
  obtain ⟨out, hok, h1, h2, h3, h4⟩ := import_stops_append
    [[("stop_id", "A"), ("name", "Alpha"), ("latitude", "1.000000"),
      ("longitude", "2.000000"), ("routes", "[]"), ("accessibility", "True")],
     [("stop_id", "B"), ("name", "Beta"), ("latitude", "3.000000"),
      ("longitude", "4.000000"), ("routes", "[]"), ("accessibility", "True")]]
    [Py.dict [("stop_id", .str "C"), ("name", .str "Gamma"),
        ("latitude", .num "10.5" (21 / 2)), ("longitude", .num "70.25" (281 / 4))],
     Py.dict [("stop_id", .str "D"), ("name", .str "Delta"),
        ("latitude", .num "11" 11), ("longitude", .num "71" 71)],
     Py.dict [("stop_id", .str "E"),
        ("latitude", .num "11" 11), ("longitude", .num "71" 71)]]
    (Or.inr (by decide))
  have h5 : (Except.ok (ImportOutcome.mk
      [[("stop_id", "A"), ("name", "Alpha"), ("latitude", "1.000000"),
        ("longitude", "2.000000"), ("routes", "[]"), ("accessibility", "True")],
       [("stop_id", "B"), ("name", "Beta"), ("latitude", "3.000000"),
        ("longitude", "4.000000"), ("routes", "[]"), ("accessibility", "True")],
       [("stop_id", "C"), ("name", "Gamma"), ("latitude", "10.500000"),
        ("longitude", "70.250000"), ("routes", "[]"), ("accessibility", "True")],
       [("stop_id", "D"), ("name", "Delta"), ("latitude", "11.000000"),
        ("longitude", "71.000000"), ("routes", "[]"), ("accessibility", "True")]]
      3 4 2 ["Row 3: stop name is required."]) : Except String ImportOutcome) = .ok out := by
    rw [← hok]
    rfl
  obtain rfl := (Except.ok.inj h5).symm
  exact ⟨_, hok, rfl, rfl, rfl⟩

/-- Hex digits round-trip through their value. -/
theorem hexVal?_hexDigit {n : Nat} (h : n < 16) : hexVal? (hexDigit n) = some n := by
  interval_cases n <;> decide

/-- Decoding inverts the character-level JSON escaping. -/
theorem jsonStrBody_escape :
    ∀ (cs : List Char) (rest : List Char),
      jsonStrBody (cs.foldr (fun c acc => jsonEscapeChar c ++ acc) [] ++ '"' :: rest) =
        some (cs, rest) := by
  intro cs
  induction cs with
  | nil => intro rest; simp [jsonStrBody.eq_def]
  | cons c cs ih =>
    intro rest
    simp only [List.foldr_cons, List.append_assoc]
    by_cases h1 : c = '"'
    · subst h1
      rw [show jsonEscapeChar '"' = ['\\', '"'] from by decide]
      rw [jsonStrBody.eq_def]
      simp +decide [jsonEsc?, ih]
    by_cases h2 : c = '\\'
    · subst h2
      rw [show jsonEscapeChar '\\' = ['\\', '\\'] from by decide]
      rw [jsonStrBody.eq_def]
      simp +decide [jsonEsc?, ih]
    by_cases h3 : c = '\n'
    · subst h3
      rw [show jsonEscapeChar '\n' = ['\\', 'n'] from by decide]
      rw [jsonStrBody.eq_def]
      simp +decide [jsonEsc?, ih]
    by_cases h4 : c = '\t'
    · subst h4
      rw [show jsonEscapeChar '\t' = ['\\', 't'] from by decide]
      rw [jsonStrBody.eq_def]
      simp +decide [jsonEsc?, ih]
    by_cases h5 : c = '\r'
    · subst h5
      rw [show jsonEscapeChar '\r' = ['\\', 'r'] from by decide]
      rw [jsonStrBody.eq_def]
      simp +decide [jsonEsc?, ih]
    by_cases h6 : c = '\x08'
    · subst h6
      rw [show jsonEscapeChar '\x08' = ['\\', 'b'] from by decide]
      rw [jsonStrBody.eq_def]
      simp +decide [jsonEsc?, ih]
    by_cases h7 : c = '\x0c'
    · subst h7
      rw [show jsonEscapeChar '\x0c' = ['\\', 'f'] from by decide]
      rw [jsonStrBody.eq_def]
      simp +decide [jsonEsc?, ih]
    by_cases h8 : c.toNat < 0x20
    · have hesc : jsonEscapeChar c =
          ['\\', 'u', '0', '0', hexDigit (c.toNat / 16), hexDigit (c.toNat % 16)] := by
        simp only [jsonEscapeChar, if_neg h1, if_neg h2, if_neg h3, if_neg h4, if_neg h5,
          if_neg h6, if_neg h7, if_pos h8]
      rw [hesc]
      have e0 : hexVal? '0' = some 0 := by decide
      have e1 : hexVal? (hexDigit (c.toNat / 16)) = some (c.toNat / 16) :=
        hexVal?_hexDigit (by omega)
      have e2 : hexVal? (hexDigit (c.toNat % 16)) = some (c.toNat % 16) :=
        hexVal?_hexDigit (by omega)
      rw [jsonStrBody.eq_def]
      simp +decide only [e0, e1, e2, ih, List.cons_append, List.nil_append]
      have hv : ((0 * 16 + 0) * 16 + c.toNat / 16) * 16 + c.toNat % 16 = c.toNat := by omega
      rw [hv]
      simp [Char.ofNat_toNat]
    · have hesc : jsonEscapeChar c = [c] := by
        simp only [jsonEscapeChar, if_neg h1, if_neg h2, if_neg h3, if_neg h4, if_neg h5,
          if_neg h6, if_neg h7, if_neg h8]
      rw [hesc]
      rw [jsonStrBody.eq_def]
      simp only [List.cons_append, List.nil_append, if_neg h1, if_neg h2, if_neg h8]
      rw [ih]
      rfl

/-- Padding by JSON whitespace is invisible to `dropWhile isJsonWs`. -/
theorem dropWhile_ws_append (pad l : List Char) (hpad : ∀ c ∈ pad, isJsonWs c = true) :
    (pad ++ l).dropWhile isJsonWs = l.dropWhile isJsonWs := by
  induction pad with
  | nil => simp
  | cons p ps ih =>
    simp only [List.cons_append, List.dropWhile_cons, hpad p (List.mem_cons_self _ _)]
    exact ih (fun c hc => hpad c (List.mem_cons_of_mem _ hc))

/-- Parsing a `json.dumps`-encoded string literal (with any leading JSON
whitespace) recovers the string and leaves exactly the trailing input. -/
theorem jsonVal_str (f : Nat) (s : String) (rest pad : List Char)
    (hpad : ∀ c ∈ pad, isJsonWs c = true) :
    jsonVal (f + 1) (pad ++ ('"' :: (jsonEscChars s ++ '"' :: rest))) = some (.str s, rest) := by
  have harg : (pad ++ ('"' :: (jsonEscChars s ++ '"' :: rest))).dropWhile isJsonWs
      = '"' :: (jsonEscChars s ++ '"' :: rest) := by
    rw [dropWhile_ws_append _ _ hpad]
    simp +decide [List.dropWhile_cons]
  rw [jsonVal.eq_def]
  dsimp only
  rw [harg]
  simp +decide only []
  have h := jsonStrBody_escape s.toList rest
  rw [jsonEscChars, h]
  rfl

/-- Each serialized element contributes at least one character to the
joined `json.dumps` body. -/
theorem jsonJoin_len : ∀ l : List String, l.length ≤ (jsonJoin (l.map jsonEncChars)).length := by
  intro l
  induction l with
  | nil => simp [jsonJoin]
  | cons s ls ih =>
    cases ls with
    | nil => simp [jsonJoin, jsonEncChars]
    | cons s2 ls2 =>
      have h1 : 1 ≤ (jsonEncChars s).length := by simp [jsonEncChars]
      simp only [List.map_cons, jsonJoin, List.length_append, List.length_cons] at ih ⊢
      omega

/-- Parsing the `", "`-joined, quote-encoded element list produced by
`json.dumps` (with any leading whitespace pad and enough fuel) yields
exactly the string elements and consumes through the closing bracket. -/
theorem jsonItems_dumps :
    ∀ (l : List String) (fuel : Nat) (pad : List Char), l ≠ [] → l.length + 1 ≤ fuel →
      (∀ c ∈ pad, isJsonWs c = true) →
      jsonItems fuel (pad ++ (jsonJoin (l.map jsonEncChars) ++ [']'])) =
        some (l.map Py.str, []) := by
  intro l
  induction l with
  | nil => intro fuel pad h _ _; cases h rfl
  | cons s ls ih =>
    intro fuel pad _ hlen hpad
    obtain ⟨f, rfl⟩ : ∃ f, fuel = f + 1 := ⟨fuel - 1, by omega⟩
    obtain ⟨f1, rfl⟩ : ∃ f1, f = f1 + 1 := ⟨f - 1, by simp at hlen; omega⟩
    rw [jsonItems.eq_def]
    dsimp only
    cases ls with
    | nil =>
      have hshape : pad ++ (jsonJoin ([s].map jsonEncChars) ++ [']'])
          = pad ++ ('"' :: (jsonEscChars s ++ '"' :: [']'])) := by
        simp [jsonJoin, jsonEncChars]
      rw [hshape, jsonVal_str f1 s [']'] pad hpad]
      simp +decide
    | cons s2 ls2 =>
      have hshape : pad ++ (jsonJoin ((s :: s2 :: ls2).map jsonEncChars) ++ [']'])
          = pad ++ ('"' :: (jsonEscChars s ++ '"' ::
              (',' :: ' ' :: (jsonJoin ((s2 :: ls2).map jsonEncChars) ++ [']'])))) := by
        simp [jsonJoin, jsonEncChars]
      rw [hshape,
        jsonVal_str f1 s (',' :: ' ' :: (jsonJoin ((s2 :: ls2).map jsonEncChars) ++ [']'])) pad hpad]
      have ih' := ih (f1 + 1) [' '] (by simp) (by simp at hlen ⊢; omega) (by decide)
      rw [List.singleton_append] at ih'
      simp +decide only []
      rw [show List.dropWhile isJsonWs
            (',' :: ' ' :: (jsonJoin ((s2 :: ls2).map jsonEncChars) ++ [']']))
          = ',' :: ' ' :: (jsonJoin ((s2 :: ls2).map jsonEncChars) ++ [']']) from by
        simp +decide [List.dropWhile_cons]]
      show Option.map (fun p => (Py.str s :: p.1, p.2))
          (jsonItems (f1 + 1) (' ' :: (jsonJoin ((s2 :: ls2).map jsonEncChars) ++ [']'])))
        = some (List.map Py.str (s :: s2 :: ls2), [])
      rw [ih']
      rfl

/-- Parsing the full bracketed `json.dumps` output of a string list (with
enough fuel) yields the list of string values with no remaining input. -/
theorem jsonVal_dumps (l : List String) (f : Nat) (h : l.length + 2 ≤ f) :
    jsonVal f ('[' :: jsonJoin (l.map jsonEncChars) ++ [']'])
      = some (.list (l.map Py.str), []) := by
  obtain ⟨f1, rfl⟩ : ∃ f1, f = f1 + 1 := ⟨f - 1, by omega⟩
  rw [jsonVal.eq_def]
  dsimp only
  rw [show List.dropWhile isJsonWs ('[' :: jsonJoin (l.map jsonEncChars) ++ [']'])
      = '[' :: (jsonJoin (l.map jsonEncChars) ++ [']']) from by
    simp +decide [List.cons_append, List.dropWhile_cons]]
  cases l with
  | nil => simp +decide [jsonJoin]
  | cons s ls =>
    obtain ⟨X, hX⟩ : ∃ X, jsonJoin ((s :: ls).map jsonEncChars) ++ [']'] = '"' :: X := by
      cases ls with
      | nil =>
        exact ⟨jsonEscChars s ++ ['"', ']'], by simp [jsonJoin, jsonEncChars]⟩
      | cons s2 ls2 =>
        exact ⟨jsonEscChars s ++ '"' :: ',' :: ' ' ::
          (jsonJoin ((s2 :: ls2).map jsonEncChars) ++ [']']), by simp [jsonJoin, jsonEncChars]⟩
    rw [hX]
    simp +decide only [List.dropWhile_cons]
    have hitems := jsonItems_dumps (s :: ls) f1 [] (by simp) (by simp at h ⊢; omega) (by simp)
    rw [List.nil_append] at hitems
    rw [← hX, hitems]
    simp only [if_false]
    rw [hX]
    show Option.map (fun p => (Py.list p.1, p.2)) (some (List.map Py.str (s :: ls), []))
      = some (Py.list (List.map Py.str (s :: ls)), [])
    rfl

/-- Round trip: `json.loads` of `json.dumps` of a string list is the list
of string values (main.py uses this pair for the stops field). -/
theorem json_loads_dumps (l : List String) :
    json_loads (json_dumps_strs l) = some (Py.list (l.map Py.str)) := by
  have hlen := jsonJoin_len l
  unfold json_loads json_dumps_strs
  dsimp only
  rw [show (String.mk ('[' :: jsonJoin (l.map jsonEncChars) ++ [']'])).toList
      = '[' :: jsonJoin (l.map jsonEncChars) ++ [']'] from rfl]
  rw [jsonVal_dumps l _ (by
    simp only [List.length_append, List.length_cons, List.length_nil]
    omega)]
  rfl

/-- Stripping from the end leaves a list ending in a non-strippable
character unchanged. -/
theorem dropEndWhile_concat (p : Char → Bool) (l : List Char) (c : Char) (hc : p c = false) :
    dropEndWhile p (l ++ [c]) = l ++ [c] := by
  unfold dropEndWhile
  simp [List.reverse_append, List.dropWhile_cons, hc]

/-- The `json.dumps` output is bracket-delimited, so Python `.strip()`
leaves it unchanged. -/
theorem pyStrip_dumps (l : List String) : pyStrip (json_dumps_strs l) = json_dumps_strs l := by
  unfold pyStrip json_dumps_strs stripBoth
  rw [show (String.mk ('[' :: jsonJoin (l.map jsonEncChars) ++ [']'])).toList
      = '[' :: jsonJoin (l.map jsonEncChars) ++ [']'] from rfl]
  rw [show ('[' :: jsonJoin (l.map jsonEncChars)) ++ [']']
      = '[' :: (jsonJoin (l.map jsonEncChars) ++ [']']) from by simp]
  rw [show List.dropWhile isPyWs ('[' :: (jsonJoin (l.map jsonEncChars) ++ [']']))
      = '[' :: (jsonJoin (l.map jsonEncChars) ++ [']']) from by simp +decide [List.dropWhile_cons]]
  rw [show '[' :: (jsonJoin (l.map jsonEncChars) ++ [']'])
      = ('[' :: jsonJoin (l.map jsonEncChars)) ++ [']'] from by simp]
  rw [dropEndWhile_concat isPyWs _ ']' (by decide)]

/-- The `json.dumps` output is never the empty string. -/
theorem dumps_ne_empty (l : List String) : json_dumps_strs l ≠ "" := by
  unfold json_dumps_strs
  intro h
  have h2 := congrArg String.toList h
  simp at h2

/-- On already-stripped, non-bracket-leading, non-empty string elements
the JSON-branch flatten/strip pipeline of `_parse_list` is the identity. -/
theorem flat_filter_id : ∀ (l : List String),
    (∀ x ∈ l, x ≠ "" ∧ pyStrip x = x ∧ startsBracket x = false) →
    ((l.map Py.str).flatMap parseListFlat).filterMap stripNonempty = l := by
  intro l
  induction l with
  | nil => intro _; rfl
  | cons x xs ih =>
    intro h
    obtain ⟨hne, hstrip, hbr⟩ := h x (List.mem_cons_self _ _)
    simp only [List.map_cons, List.flatMap_cons]
    rw [show parseListFlat (Py.str x) = [Py.str x] from by
      simp [parseListFlat, hstrip, hbr]]
    simp only [List.singleton_append, List.filterMap_cons]
    rw [show stripNonempty (Py.str x) = some x from by
      simp [stripNonempty, Py.strOf, hstrip, hne]]
    rw [ih (fun y hy => h y (List.mem_cons_of_mem _ hy))]

/-- Re-parsing the JSON serialization of a list of stripped,
non-bracket-leading, non-empty strings gives back the same list. -/
theorem parse_list_dumps (L : List String)
    (hne : ∀ x ∈ L, x ≠ "") (h : ∀ x ∈ L, pyStrip x = x ∧ startsBracket x = false) :
    _parse_list (Py.str (json_dumps_strs L)) = L := by
  simp only [_parse_list]
  rw [pyStrip_dumps]
  rw [if_neg (dumps_ne_empty L)]
  rw [json_loads_dumps]
  exact flat_filter_id L (fun x hx => ⟨hne x hx, (h x hx).1, (h x hx).2⟩)

/-- C6: `_parse_list` is idempotent through `json.dumps` on canonical
output, i.e. whenever every element of `_parse_list v` is already
whitespace-stripped and does not start with `[` or `(`, re-parsing the
serialization returns the same list.  (The unconditional form of the
claim is false: see the counterexample, where a bracket-leading element
is flattened on the second pass.) -/
theorem parse_list_idempotent_canonical (v : Py)
    (h : ∀ x ∈ _parse_list v, pyStrip x = x ∧ startsBracket x = false) :
    _parse_list (Py.str (json_dumps_strs (_parse_list v))) = _parse_list v :=
  parse_list_dumps (_parse_list v) (fun x hx => parse_list_mem_ne v x hx) h

/-- Witness for C6: a two-element canonical list survives the round trip. -/
theorem parse_list_idempotent_canonical_witness :
    _parse_list (Py.str (json_dumps_strs (_parse_list (Py.list [Py.str "x", Py.str "y"]))))
      = _parse_list (Py.list [Py.str "x", Py.str "y"]) :=
  parse_list_idempotent_canonical (Py.list [Py.str "x", Py.str "y"]) (by decide)

/-- Counterexample to unconditional C6: an element that itself looks like
a bracketed literal is kept verbatim on the first parse but flattened by
the nested-literal splice on the second, so the round trip changes the
list. -/
theorem parse_list_not_idempotent :
    _parse_list (Py.list [Py.str "['a','b']"]) = ["['a','b']"] ∧
    _parse_list (Py.str (json_dumps_strs (_parse_list (Py.list [Py.str "['a','b']"]))))
      = ["a", "b"] := by
  exact ⟨by decide, by decide⟩

/-- The nearest-neighbor reordering (no start index) is a permutation of
its input. -/
theorem nno_perm (points : List (ℚ × ℚ)) :
    (_nearest_neighbor_order points Option.none).Perm points := by
  by_cases hp : points.isEmpty
  · have h0 : points = [] := List.isEmpty_iff.mp hp
    subst h0
    simp [_nearest_neighbor_order]
  · obtain ⟨s, hs⟩ : ∃ s,
        argminKey (fun i => toLex ((points.getD i (0, 0)).2, (points.getD i (0, 0)).1))
          (List.range points.length) = some s := by
      cases hr : List.range points.length with
      | nil =>
        have h1 : points.length = 0 := by simpa using congrArg List.length hr
        rw [List.length_eq_zero] at h1
        subst h1
        simp at hp
      | cons x xs => exact ⟨_, rfl⟩
    have hsmem : s ∈ List.range points.length := argminKey_mem hs
    have hremlen : ((List.range points.length).filter (fun i => i ≠ s)).length ≤
        points.length := le_trans (List.length_filter_le _ _) (by rw [List.length_range])
    obtain ⟨hperm, -⟩ :=
      nnLoop_spec points points.length s ((List.range points.length).filter (fun i => i ≠ s))
        hremlen
    have hrem_eq : (List.range points.length).filter (fun i => i ≠ s) =
        (List.range points.length).erase s := by
      rw [List.Nodup.erase_eq_filter (List.nodup_range points.length) s]
      apply List.filter_congr
      intro x _
      by_cases hxx : x = s <;> simp [hxx]
    have hidxperm :
        (s :: nnLoop points points.length s
            ((List.range points.length).filter (fun i => i ≠ s))).Perm
          (List.range points.length) := by
      refine (hperm.cons s).trans ?_
      rw [hrem_eq]
      exact (List.perm_cons_erase hsmem).symm
    have hout : _nearest_neighbor_order points Option.none =
        (s :: nnLoop points points.length s
          ((List.range points.length).filter (fun i => i ≠ s))).map
            (fun i => points.getD i (0, 0)) := by
      rw [_nearest_neighbor_order, if_neg (by simp [hp])]
      simp only [hs, Option.getD_some]
    rw [hout]
    have hmap := hidxperm.map (fun i => points.getD i (0, 0))
    rwa [mapRangeGetD] at hmap

/-- The flipped nearest-neighbor line has exactly one output point per
input point. -/
theorem flip_nno_length (pts : List (ℚ × ℚ)) :
    (flipLine (_nearest_neighbor_order pts Option.none)).length = pts.length := by
  rw [flipLine, List.length_map, (nno_perm pts).length_eq]

/-- A list of positive length is not empty (`isEmpty` form). -/
theorem isEmpty_false_of_len {α : Type*} {l : List α} (h : 1 ≤ l.length) : l.isEmpty = false := by
  cases l with
  | nil => simp at h
  | cons a t => rfl

/-- C1: the geometry derivation of `routes_geojson` refines the amended
cascade: the declared stop order (requiring at least 2 resolved points),
then the comprehensive stop-id set (requiring at least 2 resolved
points), then the stored `coordinates` field, whose result - empty, a
single point, several points, or a raised conversion error - is final.
(The claim's unconditional form is refuted by the counterexample: the
stored-coordinates source is not subject to the 2-point minimum and can
raise instead of yielding empty geometry.) -/
theorem routeLine_eq_spec (r : Row) (stops_rows : List Row) (rts : String → List String) :
    routeLine r stops_rows rts = specRouteLine r stops_rows rts := by
  unfold routeLine specRouteLine
  dsimp only
  by_cases hp : (_parse_list (pyOr (rowGet r "stops") (Py.str "[]"))).isEmpty
  · simp only [hp, if_true]
    rw [List.isEmpty_iff.mp hp]
    rw [show resolvePts [] (buildStopLookup stops_rows) = [] from rfl]
    simp only [List.length_nil]
    rw [if_neg (by omega : ¬ (2:Nat) ≤ 0)]
    by_cases hc : 2 ≤ (resolvePts (_collect_route_stop_ids (routeRowId r) r stops_rows rts)
        (buildStopLookup stops_rows)).length
    · have hasine : (_collect_route_stop_ids (routeRowId r) r stops_rows rts).isEmpty = false := by
        cases h0 : _collect_route_stop_ids (routeRowId r) r stops_rows rts with
        | nil =>
          rw [h0] at hc
          simp [resolvePts] at hc
        | cons a tl => rfl
      have hflip := flip_nno_length (resolvePts
        (_collect_route_stop_ids (routeRowId r) r stops_rows rts) (buildStopLookup stops_rows))
      simp only [hasine, Bool.false_eq_true, if_false, if_pos hc, ite_self]
      have hne : (flipLine (_nearest_neighbor_order (resolvePts
          (_collect_route_stop_ids (routeRowId r) r stops_rows rts)
          (buildStopLookup stops_rows)) Option.none)).isEmpty = false := by
        apply isEmpty_false_of_len
        rw [hflip]
        omega
      simp only [hne, Bool.false_eq_true, if_false]
    · simp only [if_neg hc, ite_self]
      simp only [List.isEmpty_nil, eq_self_iff_true, if_true]
      cases hcf : coordsFallback r with
      | error e => rfl
      | ok l2 =>
        cases l2 with
        | nil => simp
        | cons a tl => simp
  · rw [Bool.not_eq_true] at hp
    simp only [hp, Bool.false_eq_true, if_false]
    by_cases hd : 2 ≤ (resolvePts (_parse_list (pyOr (rowGet r "stops") (Py.str "[]")))
        (buildStopLookup stops_rows)).length
    · have hflip := flip_nno_length (resolvePts
        (_parse_list (pyOr (rowGet r "stops") (Py.str "[]"))) (buildStopLookup stops_rows))
      simp only [if_pos hd]
      rw [if_neg (show ¬ (flipLine (_nearest_neighbor_order (resolvePts
          (_parse_list (pyOr (rowGet r "stops") (Py.str "[]")))
          (buildStopLookup stops_rows)) Option.none)).length < 2 by rw [hflip]; omega)]
      have hne : (flipLine (_nearest_neighbor_order (resolvePts
          (_parse_list (pyOr (rowGet r "stops") (Py.str "[]")))
          (buildStopLookup stops_rows)) Option.none)).isEmpty = false := by
        apply isEmpty_false_of_len
        rw [hflip]
        omega
      simp only [hne, Bool.false_eq_true, if_false]
    · simp only [if_neg hd]
      by_cases hc : 2 ≤ (resolvePts (_collect_route_stop_ids (routeRowId r) r stops_rows rts)
          (buildStopLookup stops_rows)).length
      · have hflip := flip_nno_length (resolvePts
          (_collect_route_stop_ids (routeRowId r) r stops_rows rts) (buildStopLookup stops_rows))
        simp only [if_pos hc]
        simp only [List.length_nil]
        rw [if_pos (show (0:Nat) < 2 by omega)]
        have hne : (flipLine (_nearest_neighbor_order (resolvePts
            (_collect_route_stop_ids (routeRowId r) r stops_rows rts)
            (buildStopLookup stops_rows)) Option.none)).isEmpty = false := by
          apply isEmpty_false_of_len
          rw [hflip]
          omega
        simp only [hne, Bool.false_eq_true, if_false]
      · simp only [if_neg hc, ite_self]
        simp only [List.isEmpty_nil, eq_self_iff_true, if_true]
        cases hcf : coordsFallback r with
        | error e => rfl
        | ok l2 =>
          cases l2 with
          | nil => simp
          | cons a tl => simp

unseal Rat.sub Rat.mul Rat.add Rat.inv Rat.ofScientific in
/-- Counterexample to C1 as stated: with no resolvable stops, a stored
`coordinates` field holding a single pair yields a one-point line (the
claim requires at least 2 points from every source, with empty geometry
otherwise), and a stored pair of non-numeric strings raises a
`ValueError` instead of falling through to empty geometry. -/
theorem routes_geojson_single_stored_point :
    routeLine [("route_id", "R1"), ("stops", "[]"), ("coordinates", "[[12.0, 77.0]]")]
        [] (fun _ => []) = .ok [((77 : ℚ), (12 : ℚ))] ∧
    routeLine [("route_id", "R1"), ("stops", "[]"), ("coordinates", "[[\"a\", \"b\"]]")]
        [] (fun _ => []) = .error "ValueError: could not convert string to float" := by
  exact ⟨rfl, rfl⟩

end NagaraTrack
